import Mathlib

/-!
Verification development for the galay-redis client library.

The definitions below are shallow embeddings of the C++ sources:
  * `protocol/RedisProtocol.cc`  (RESP parser and encoder),
  * `protocol/Connection.cc`     (synchronous receive loop with 1 MiB cap),
  * `async/RedisClient.cc/.h`    (awaitable-caching client, pipeline, URL connect),
  * `async/AsyncRedisSession.cc/.h` (session with closed-flag semantics),
  * `async/RedisConnectionPool.cc/.h` (pool counters).
Byte buffers are modelled as `List Char`; machine integers as `Int`/`Nat`
(the C++ code performs no overflow checks on parsed integers, and none of
the verified properties depend on 64-bit wrap-around).
-/

namespace GalayRedis

/-- Parse error enumeration, from `protocol/RedisProtocol.h` (enum class ParseError). -/
inductive ParseError where
  | Success
  | Incomplete
  | InvalidFormat
  | InvalidType
  | InvalidLength
  | BufferOverflow
  deriving DecidableEq, Repr

/-- Reply value, from `protocol/RedisProtocol.h` (RespType + RespData).
Doubles carry the raw textual body instead of a float, since the numeric
value of `std::stod` plays no role in any verified property. -/
inductive RedisReply where
  | simpleString (s : List Char)
  | error (s : List Char)
  | integer (v : Int)
  | bulkString (s : List Char)
  | array (elems : List RedisReply)
  | null
  | double (body : List Char)
  | boolean (b : Bool)
  | map (pairs : List (RedisReply × RedisReply))
  | set (elems : List RedisReply)
  deriving Repr

/-- Scans for the first CRLF starting at absolute index `i`; the list argument
is the suffix of the buffer starting at `i`.  Mirrors the loop in
`RespParser::findCRLF`, which requires both bytes to be in range. -/
def findCRLFFrom : List Char → Nat → Option Nat
  | a :: b :: rest, i =>
      if a = '\r' ∧ b = '\n' then some i else findCRLFFrom (b :: rest) (i + 1)
  | _, _ => none

/-- RespParser::findCRLF from `protocol/RedisProtocol.cc`: first index `p ≥ offset`
with `data[p] = CR` and `data[p+1] = LF`. -/
def findCRLF (data : List Char) (offset : Nat) : Option Nat :=
  findCRLFFrom (data.drop offset) offset

/-- Decimal digit test, mirroring the `data[i] < '0' || data[i] > '9'` check. -/
def isDigitChar (c : Char) : Bool := '0' ≤ c ∧ c ≤ '9'

/-- Value accumulation loop of `RespParser::parseIntegerValue`:
`result = result * 10 + (data[i] - '0')`, failing at the first non-digit. -/
def digitsValue : List Char → Nat → Option Nat
  | [], acc => some acc
  | c :: rest, acc =>
      if isDigitChar c then digitsValue rest (acc * 10 + (c.toNat - '0'.toNat))
      else none

/-- RespParser::parseIntegerValue from `protocol/RedisProtocol.cc`.
Empty input is InvalidFormat; a single leading `-` or `+` is skipped
(`-` sets the sign); every remaining byte must be a digit.  A bare sign
yields 0, exactly as in the source (the digit loop simply does not run). -/
def parseIntegerValue (data : List Char) : Except ParseError Int :=
  match data with
  | [] => .error .InvalidFormat
  | c :: rest =>
      let negative : Bool := c = '-'
      let digits : List Char := if c = '-' ∨ c = '+' then rest else data
      match digitsValue digits 0 with
      | none => .error .InvalidFormat
      | some v => .ok (if negative then -(v : Int) else (v : Int))

/-- RespParser::parseSimpleString: text up to CRLF, consumed = crlf + 2. -/
def parseSimpleString (data : List Char) : Except ParseError (Nat × RedisReply) :=
  match findCRLF data 1 with
  | none => .error .Incomplete
  | some p => .ok (p + 2, .simpleString ((data.drop 1).take (p - 1)))

/-- RespParser::parseError: like parseSimpleString but tagged Error. -/
def parseErrorReply (data : List Char) : Except ParseError (Nat × RedisReply) :=
  match findCRLF data 1 with
  | none => .error .Incomplete
  | some p => .ok (p + 2, RedisReply.error ((data.drop 1).take (p - 1)))

/-- RespParser::parseInteger: integer body between `:` and CRLF. -/
def parseInteger (data : List Char) : Except ParseError (Nat × RedisReply) :=
  match findCRLF data 1 with
  | none => .error .Incomplete
  | some p =>
      match parseIntegerValue ((data.drop 1).take (p - 1)) with
      | .error e => .error e
      | .ok v => .ok (p + 2, .integer v)

/-- Approximates the success condition of `std::stod` used by
RespParser::parseDouble: optional leading spaces, optional sign, then a
decimal mantissa beginning with a digit or a dot followed by a digit.
(Hex floats, inf/nan and the out-of-range throw are not modelled; no
verified property depends on this predicate.) -/
def stodAccepts (s : List Char) : Bool :=
  let t := s.dropWhile (fun c => c = ' ')
  let u := match t with
    | c :: rest => if c = '+' ∨ c = '-' then rest else t
    | [] => []
  match u with
  | [] => false
  | c :: rest =>
      isDigitChar c || (c == '.' && (match rest with
        | d :: _ => isDigitChar d
        | [] => false))

/-- RespParser::parseDouble: body up to CRLF, `std::stod` must accept it. -/
def parseDouble (data : List Char) : Except ParseError (Nat × RedisReply) :=
  match findCRLF data 1 with
  | none => .error .Incomplete
  | some p =>
      let body := (data.drop 1).take (p - 1)
      if stodAccepts body then .ok (p + 2, .double body)
      else .error .InvalidFormat

/-- RespParser::parseBoolean: needs 4 bytes, `#t\r\n` or `#f\r\n`; the `t`/`f`
byte is checked before the CRLF bytes, exactly as in the source. -/
def parseBoolean (data : List Char) : Except ParseError (Nat × RedisReply) :=
  if data.length < 4 then .error .Incomplete
  else
    match (if data.get? 1 = some 't' then some true
           else if data.get? 1 = some 'f' then some false
           else none) with
    | none => .error .InvalidFormat
    | some b =>
        if data.get? 2 = some '\r' ∧ data.get? 3 = some '\n' then
          .ok (4, .boolean b)
        else .error .InvalidFormat

/-- RespParser::parseBulkString: length prefix, `-1` yields Null, other
negatives are InvalidLength; the content must be fully present and be
terminated by CRLF. -/
def parseBulkString (data : List Char) : Except ParseError (Nat × RedisReply) :=
  match findCRLF data 1 with
  | none => .error .Incomplete
  | some p =>
      match parseIntegerValue ((data.drop 1).take (p - 1)) with
      | .error e => .error e
      | .ok strLen =>
          if strLen = -1 then .ok (p + 2, .null)
          else if strLen < 0 then .error .InvalidLength
          else
            let n := strLen.toNat
            let contentStart := p + 2
            let contentEnd := contentStart + n
            if contentEnd + 2 > data.length then .error .Incomplete
            else if data.get? contentEnd = some '\r' ∧ data.get? (contentEnd + 1) = some '\n' then
              .ok (contentEnd + 2, .bulkString ((data.drop contentStart).take n))
            else .error .InvalidFormat

/-- Lexicographic step lemma for the termination measures of the mutual
parser definitions: the byte position never moves backwards and the
auxiliary rank strictly drops. -/
theorem natLexOfLe (a₁ a₂ b₁ b₂ : Nat) (ha : a₁ ≤ a₂) (hb : b₁ < b₂) :
    Prod.Lex (· < ·) (· < ·) (a₁, b₁) (a₂, b₂) := by
  rcases Nat.lt_or_ge a₁ a₂ with h | h
  · exact Prod.Lex.left _ _ h
  · have he : a₁ = a₂ := le_antisymm ha h
    subst he
    exact Prod.Lex.right _ hb

/-- A found CRLF position lies at or after the search offset and strictly
inside the buffer (both bytes in range). -/
theorem findCRLFFrom_some (l : List Char) (i p : Nat) (h : findCRLFFrom l i = some p) :
    i ≤ p ∧ p + 1 < i + l.length := by
  induction l generalizing i with
  | nil => simp [findCRLFFrom] at h
  | cons a t ih =>
    cases t with
    | nil => simp [findCRLFFrom] at h
    | cons b rest =>
      rw [findCRLFFrom] at h
      by_cases hc : a = '\r' ∧ b = '\n'
      · simp only [if_pos hc, Option.some.injEq] at h
        subst h
        simp only [List.length_cons]
        omega
      · simp only [if_neg hc] at h
        have h2 := ih (i + 1) h
        simp only [List.length_cons] at h2 ⊢
        omega

/-- Specialisation of `findCRLFFrom_some` to `findCRLF`. -/
theorem findCRLF_some_lt (data : List Char) (off p : Nat) (h : findCRLF data off = some p) :
    off ≤ p ∧ p + 1 < data.length := by
  unfold findCRLF at h
  have h2 := findCRLFFrom_some _ _ _ h
  have hd : (data.drop off).length = data.length - off := List.length_drop off data
  omega

mutual

/-- RespParser::parse from `protocol/RedisProtocol.cc`: dispatch on the first
byte.  The dispatch table is `+ - : $ * , # % ~`; every other first byte
(including the RESP3 push marker) falls to InvalidType.  Empty input is
Incomplete (the `length < 1` check). -/
def parse (data : List Char) : Except ParseError (Nat × RedisReply) :=
  match data with
  | [] => .error .Incomplete
  | c :: tl =>
      if c = '+' then parseSimpleString (c :: tl)
      else if c = '-' then parseErrorReply (c :: tl)
      else if c = ':' then parseInteger (c :: tl)
      else if c = '$' then parseBulkString (c :: tl)
      else if c = '*' then parseArray (c :: tl)
      else if c = ',' then parseDouble (c :: tl)
      else if c = '#' then parseBoolean (c :: tl)
      else if c = '%' then parseMap (c :: tl)
      else if c = '~' then parseSet (c :: tl)
      else .error .InvalidType
termination_by (data.length, 2)

/-- RespParser::parseArray: count prefix, `-1` yields Null, other negatives
InvalidLength; then `count` recursively parsed elements. -/
def parseArray (data : List Char) : Except ParseError (Nat × RedisReply) :=
  match h : findCRLF data 1 with
  | none => .error .Incomplete
  | some p =>
      match parseIntegerValue ((data.drop 1).take (p - 1)) with
      | .error e => .error e
      | .ok arrayLen =>
          if arrayLen = -1 then .ok (p + 2, .null)
          else if arrayLen < 0 then .error .InvalidLength
          else
            match parseElems (data.drop (p + 2)) arrayLen.toNat with
            | .error e => .error e
            | .ok (c, elems) => .ok (p + 2 + c, .array elems)
termination_by (data.length, 1)
decreasing_by
  simp_wf
  have hp := findCRLF_some_lt data 1 p h
  exact Prod.Lex.left _ _ (by simp; omega)

/-- RespParser::parseMap: count prefix; any negative count (including `-1`)
is InvalidLength; then `count` recursively parsed key/value pairs. -/
def parseMap (data : List Char) : Except ParseError (Nat × RedisReply) :=
  match h : findCRLF data 1 with
  | none => .error .Incomplete
  | some p =>
      match parseIntegerValue ((data.drop 1).take (p - 1)) with
      | .error e => .error e
      | .ok mapSize =>
          if mapSize < 0 then .error .InvalidLength
          else
            match parsePairs (data.drop (p + 2)) mapSize.toNat with
            | .error e => .error e
            | .ok (c, pairs) => .ok (p + 2 + c, .map pairs)
termination_by (data.length, 1)
decreasing_by
  simp_wf
  have hp := findCRLF_some_lt data 1 p h
  exact Prod.Lex.left _ _ (by simp; omega)

/-- RespParser::parseSet: count prefix; any negative count (including `-1`)
is InvalidLength; then `count` recursively parsed elements. -/
def parseSet (data : List Char) : Except ParseError (Nat × RedisReply) :=
  match h : findCRLF data 1 with
  | none => .error .Incomplete
  | some p =>
      match parseIntegerValue ((data.drop 1).take (p - 1)) with
      | .error e => .error e
      | .ok setSize =>
          if setSize < 0 then .error .InvalidLength
          else
            match parseElems (data.drop (p + 2)) setSize.toNat with
            | .error e => .error e
            | .ok (c, elems) => .ok (p + 2 + c, .set elems)
termination_by (data.length, 1)
decreasing_by
  simp_wf
  have hp := findCRLF_some_lt data 1 p h
  exact Prod.Lex.left _ _ (by simp; omega)

/-- Element loop shared by parseArray and parseSet: the C++ code keeps an
absolute `offset` into the original buffer; here `rest` is the suffix of the
buffer at that offset and the returned Nat is the total number of bytes the
loop consumed.  `offset >= length` in the source corresponds to `rest = []`. -/
def parseElems (rest : List Char) (count : Nat) : Except ParseError (Nat × List RedisReply) :=
  match count with
  | 0 => .ok (0, [])
  | k + 1 =>
      if rest.isEmpty then .error .Incomplete
      else
        match parse rest with
        | .error e => .error e
        | .ok (consumed, elem) =>
            match parseElems (rest.drop consumed) k with
            | .error e => .error e
            | .ok (c2, elems) => .ok (consumed + c2, elem :: elems)
termination_by (rest.length, 3 + count)
decreasing_by
  all_goals simp_wf
  · exact Prod.Lex.right _ (by omega)
  · exact natLexOfLe _ _ _ _ (by simp) (by omega)

/-- Key/value loop of parseMap, with the same suffix convention as
`parseElems`. -/
def parsePairs (rest : List Char) (count : Nat) : Except ParseError (Nat × List (RedisReply × RedisReply)) :=
  match count with
  | 0 => .ok (0, [])
  | k + 1 =>
      if rest.isEmpty then .error .Incomplete
      else
        match parse rest with
        | .error e => .error e
        | .ok (ck, key) =>
            if (rest.drop ck).isEmpty then .error .Incomplete
            else
              match parse (rest.drop ck) with
              | .error e => .error e
              | .ok (cv, val) =>
                  match parsePairs ((rest.drop ck).drop cv) k with
                  | .error e => .error e
                  | .ok (c2, pairs) => .ok (ck + cv + c2, (key, val) :: pairs)
termination_by (rest.length, 3 + count)
decreasing_by
  all_goals simp_wf
  · exact Prod.Lex.right _ (by omega)
  · exact natLexOfLe _ _ _ _ (by simp) (by omega)
  · exact natLexOfLe _ _ _ _ (by simp) (by omega)

end


theorem findCRLFFrom_append (l ext : List Char) (i p : Nat) (h : findCRLFFrom l i = some p) :
    findCRLFFrom (l ++ ext) i = some p := by
  induction l generalizing i with
  | nil => simp [findCRLFFrom] at h
  | cons a t ih =>
    cases t with
    | nil => simp [findCRLFFrom] at h
    | cons b rest =>
      rw [findCRLFFrom] at h
      rw [List.cons_append, List.cons_append, findCRLFFrom]
      by_cases hc : a = '\r' ∧ b = '\n'
      · simp only [if_pos hc] at h ⊢
        exact h
      · simp only [if_neg hc] at h ⊢
        rw [← List.cons_append]
        exact ih (i + 1) h

theorem findCRLF_append (data ext : List Char) (off p : Nat) (h : findCRLF data off = some p) :
    findCRLF (data ++ ext) off = some p := by
  have hb := findCRLF_some_lt data off p h
  unfold findCRLF at h ⊢
  rw [List.drop_append_of_le_length (by omega)]
  exact findCRLFFrom_append _ _ _ _ h

theorem findCRLFFrom_take (l : List Char) (i p m : Nat) (h : findCRLFFrom l i = some p)
    (hm : p + 2 ≤ i + m) : findCRLFFrom (l.take m) i = some p := by
  induction l generalizing i m with
  | nil => simp [findCRLFFrom] at h
  | cons a t ih =>
    cases t with
    | nil => simp [findCRLFFrom] at h
    | cons b rest =>
      have hbnd := findCRLFFrom_some _ _ _ h
      rw [findCRLFFrom] at h
      by_cases hc : a = '\r' ∧ b = '\n'
      · simp only [if_pos hc, Option.some.injEq] at h
        subst h
        obtain ⟨q, rfl⟩ : ∃ q, m = q + 2 := ⟨m - 2, by omega⟩
        rw [List.take_succ_cons, List.take_succ_cons, findCRLFFrom]
        simp only [if_pos hc]
      · simp only [if_neg hc] at h
        have h2 := findCRLFFrom_some _ _ _ h
        obtain ⟨q, rfl⟩ : ∃ q, m = q + 2 := ⟨m - 2, by omega⟩
        rw [List.take_succ_cons, List.take_succ_cons, findCRLFFrom]
        simp only [if_neg hc]
        have h3 := ih (i + 1) (q + 1) h (by omega)
        rwa [List.take_succ_cons] at h3

theorem findCRLFFrom_take_none (l : List Char) (i p m : Nat) (h : findCRLFFrom l i = some p)
    (hm : i + m ≤ p + 1) : findCRLFFrom (l.take m) i = none := by
  induction l generalizing i m with
  | nil => simp [findCRLFFrom] at h
  | cons a t ih =>
    cases t with
    | nil => simp [findCRLFFrom] at h
    | cons b rest =>
      rw [findCRLFFrom] at h
      by_cases hc : a = '\r' ∧ b = '\n'
      · simp only [if_pos hc, Option.some.injEq] at h
        subst h
        match m, hm with
        | 0, _ => simp [findCRLFFrom]
        | 1, _ => simp [findCRLFFrom, List.take_succ_cons]
        | q + 2, hm => exact absurd hm (by omega)
      · simp only [if_neg hc] at h
        have h2 := findCRLFFrom_some _ _ _ h
        match m, hm with
        | 0, _ => simp [findCRLFFrom]
        | 1, _ => simp [findCRLFFrom, List.take_succ_cons]
        | q + 2, hm =>
          rw [List.take_succ_cons, List.take_succ_cons, findCRLFFrom]
          simp only [if_neg hc]
          have h3 := ih (i + 1) (q + 1) h (by omega)
          rwa [List.take_succ_cons] at h3

theorem findCRLF_take (data : List Char) (off p n : Nat) (h : findCRLF data off = some p)
    (hn : p + 2 ≤ n) : findCRLF (data.take n) off = some p := by
  have hb := findCRLF_some_lt data off p h
  unfold findCRLF at h ⊢
  rw [List.drop_take]
  exact findCRLFFrom_take _ _ _ _ h (by omega)

theorem findCRLF_take_none (data : List Char) (off p n : Nat) (h : findCRLF data off = some p)
    (hn : n ≤ p + 1) : findCRLF (data.take n) off = none := by
  have hb := findCRLF_some_lt data off p h
  unfold findCRLF at h ⊢
  rw [List.drop_take]
  by_cases hoff : off ≤ n
  · exact findCRLFFrom_take_none _ _ _ _ h (by omega)
  · have : n - off = 0 := by omega
    rw [this]
    simp [findCRLFFrom]




theorem parseSimpleString_bounds (data : List Char) (c : Nat) (r : RedisReply)
    (h : parseSimpleString data = .ok (c, r)) : 1 ≤ c ∧ c ≤ data.length := by
  cases hf : findCRLF data 1 with
  | none => simp only [parseSimpleString, hf] at h; simp at h
  | some p =>
      simp only [parseSimpleString, hf, Except.ok.injEq, Prod.mk.injEq] at h
      have hb := findCRLF_some_lt data 1 p hf
      omega

theorem parseSimpleString_append (data ext : List Char) (c : Nat) (r : RedisReply)
    (h : parseSimpleString data = .ok (c, r)) : parseSimpleString (data ++ ext) = .ok (c, r) := by
  cases hf : findCRLF data 1 with
  | none => simp only [parseSimpleString, hf] at h; simp at h
  | some p =>
      simp only [parseSimpleString, hf] at h
      have hb := findCRLF_some_lt data 1 p hf
      simp only [parseSimpleString, findCRLF_append data ext 1 p hf,
          List.drop_append_of_le_length (show 1 ≤ data.length by omega),
          List.take_append_of_le_length
            (show p - 1 ≤ (List.drop 1 data).length by simp only [List.length_drop]; omega)]
      exact h

theorem parseSimpleString_take (data : List Char) (c : Nat) (r : RedisReply) (m : Nat)
    (h : parseSimpleString data = .ok (c, r)) (hm : c ≤ m) :
    parseSimpleString (data.take m) = .ok (c, r) := by
  cases hf : findCRLF data 1 with
  | none => simp only [parseSimpleString, hf] at h; simp at h
  | some p =>
      simp only [parseSimpleString, hf, Except.ok.injEq, Prod.mk.injEq] at h
      obtain ⟨hc, hr⟩ := h
      have hb := findCRLF_some_lt data 1 p hf
      simp only [parseSimpleString, findCRLF_take data 1 p m hf (by omega),
          List.drop_take, List.take_take]
      have hmin : min (p - 1) (m - 1) = p - 1 := by omega
      rw [hmin, hc, hr]

theorem parseSimpleString_take_lt (data : List Char) (c : Nat) (r : RedisReply) (m : Nat)
    (h : parseSimpleString data = .ok (c, r)) (hm : m < c) :
    parseSimpleString (data.take m) = .error .Incomplete := by
  cases hf : findCRLF data 1 with
  | none => simp only [parseSimpleString, hf] at h; simp at h
  | some p =>
      simp only [parseSimpleString, hf, Except.ok.injEq, Prod.mk.injEq] at h
      obtain ⟨hc, hr⟩ := h
      simp only [parseSimpleString, findCRLF_take_none data 1 p m hf (by omega)]



theorem parseErrorReply_bounds (data : List Char) (c : Nat) (r : RedisReply)
    (h : parseErrorReply data = .ok (c, r)) : 1 ≤ c ∧ c ≤ data.length := by
  cases hf : findCRLF data 1 with
  | none => simp only [parseErrorReply, hf] at h; simp at h
  | some p =>
      simp only [parseErrorReply, hf, Except.ok.injEq, Prod.mk.injEq] at h
      have hb := findCRLF_some_lt data 1 p hf
      omega

theorem parseErrorReply_append (data ext : List Char) (c : Nat) (r : RedisReply)
    (h : parseErrorReply data = .ok (c, r)) : parseErrorReply (data ++ ext) = .ok (c, r) := by
  cases hf : findCRLF data 1 with
  | none => simp only [parseErrorReply, hf] at h; simp at h
  | some p =>
      simp only [parseErrorReply, hf] at h
      have hb := findCRLF_some_lt data 1 p hf
      simp only [parseErrorReply, findCRLF_append data ext 1 p hf,
          List.drop_append_of_le_length (show 1 ≤ data.length by omega),
          List.take_append_of_le_length
            (show p - 1 ≤ (List.drop 1 data).length by simp only [List.length_drop]; omega)]
      exact h

theorem parseErrorReply_take (data : List Char) (c : Nat) (r : RedisReply) (m : Nat)
    (h : parseErrorReply data = .ok (c, r)) (hm : c ≤ m) :
    parseErrorReply (data.take m) = .ok (c, r) := by
  cases hf : findCRLF data 1 with
  | none => simp only [parseErrorReply, hf] at h; simp at h
  | some p =>
      simp only [parseErrorReply, hf, Except.ok.injEq, Prod.mk.injEq] at h
      obtain ⟨hc, hr⟩ := h
      have hb := findCRLF_some_lt data 1 p hf
      simp only [parseErrorReply, findCRLF_take data 1 p m hf (by omega),
          List.drop_take, List.take_take]
      have hmin : min (p - 1) (m - 1) = p - 1 := by omega
      rw [hmin, hc, hr]

theorem parseErrorReply_take_lt (data : List Char) (c : Nat) (r : RedisReply) (m : Nat)
    (h : parseErrorReply data = .ok (c, r)) (hm : m < c) :
    parseErrorReply (data.take m) = .error .Incomplete := by
  cases hf : findCRLF data 1 with
  | none => simp only [parseErrorReply, hf] at h; simp at h
  | some p =>
      simp only [parseErrorReply, hf, Except.ok.injEq, Prod.mk.injEq] at h
      obtain ⟨hc, hr⟩ := h
      simp only [parseErrorReply, findCRLF_take_none data 1 p m hf (by omega)]

theorem parseInteger_bounds (data : List Char) (c : Nat) (r : RedisReply)
    (h : parseInteger data = .ok (c, r)) : 1 ≤ c ∧ c ≤ data.length := by
  cases hf : findCRLF data 1 with
  | none => simp only [parseInteger, hf] at h; simp at h
  | some p =>
      simp only [parseInteger, hf] at h
      have hb := findCRLF_some_lt data 1 p hf
      cases hv : parseIntegerValue ((data.drop 1).take (p - 1)) with
      | error e => rw [hv] at h; simp at h
      | ok v =>
          rw [hv] at h
          simp only [Except.ok.injEq, Prod.mk.injEq] at h
          omega

theorem parseInteger_append (data ext : List Char) (c : Nat) (r : RedisReply)
    (h : parseInteger data = .ok (c, r)) : parseInteger (data ++ ext) = .ok (c, r) := by
  cases hf : findCRLF data 1 with
  | none => simp only [parseInteger, hf] at h; simp at h
  | some p =>
      simp only [parseInteger, hf] at h
      have hb := findCRLF_some_lt data 1 p hf
      simp only [parseInteger, findCRLF_append data ext 1 p hf,
          List.drop_append_of_le_length (show 1 ≤ data.length by omega),
          List.take_append_of_le_length
            (show p - 1 ≤ (List.drop 1 data).length by simp only [List.length_drop]; omega)]
      exact h

theorem parseInteger_take (data : List Char) (c : Nat) (r : RedisReply) (m : Nat)
    (h : parseInteger data = .ok (c, r)) (hm : c ≤ m) :
    parseInteger (data.take m) = .ok (c, r) := by
  cases hf : findCRLF data 1 with
  | none => simp only [parseInteger, hf] at h; simp at h
  | some p =>
      simp only [parseInteger, hf] at h
      have hb := findCRLF_some_lt data 1 p hf
      have hcle : p + 2 ≤ m := by
        cases hv : parseIntegerValue ((data.drop 1).take (p - 1)) with
        | error e => rw [hv] at h; simp at h
        | ok v =>
            rw [hv] at h
            simp only [Except.ok.injEq, Prod.mk.injEq] at h
            omega
      simp only [parseInteger, findCRLF_take data 1 p m hf hcle,
          List.drop_take, List.take_take]
      have hmin : min (p - 1) (m - 1) = p - 1 := by omega
      rw [hmin]
      exact h

theorem parseInteger_take_lt (data : List Char) (c : Nat) (r : RedisReply) (m : Nat)
    (h : parseInteger data = .ok (c, r)) (hm : m < c) :
    parseInteger (data.take m) = .error .Incomplete := by
  cases hf : findCRLF data 1 with
  | none => simp only [parseInteger, hf] at h; simp at h
  | some p =>
      simp only [parseInteger, hf] at h
      have hmle : m ≤ p + 1 := by
        cases hv : parseIntegerValue ((data.drop 1).take (p - 1)) with
        | error e => rw [hv] at h; simp at h
        | ok v =>
            rw [hv] at h
            simp only [Except.ok.injEq, Prod.mk.injEq] at h
            omega
      simp only [parseInteger, findCRLF_take_none data 1 p m hf hmle]

theorem parseDouble_bounds (data : List Char) (c : Nat) (r : RedisReply)
    (h : parseDouble data = .ok (c, r)) : 1 ≤ c ∧ c ≤ data.length := by
  cases hf : findCRLF data 1 with
  | none => simp only [parseDouble, hf] at h; simp at h
  | some p =>
      simp only [parseDouble, hf] at h
      have hb := findCRLF_some_lt data 1 p hf
      by_cases hs : stodAccepts ((data.drop 1).take (p - 1))
      · rw [if_pos hs] at h
        simp only [Except.ok.injEq, Prod.mk.injEq] at h
        omega
      · rw [if_neg hs] at h; simp at h

theorem parseDouble_append (data ext : List Char) (c : Nat) (r : RedisReply)
    (h : parseDouble data = .ok (c, r)) : parseDouble (data ++ ext) = .ok (c, r) := by
  cases hf : findCRLF data 1 with
  | none => simp only [parseDouble, hf] at h; simp at h
  | some p =>
      simp only [parseDouble, hf] at h
      have hb := findCRLF_some_lt data 1 p hf
      simp only [parseDouble, findCRLF_append data ext 1 p hf,
          List.drop_append_of_le_length (show 1 ≤ data.length by omega),
          List.take_append_of_le_length
            (show p - 1 ≤ (List.drop 1 data).length by simp only [List.length_drop]; omega)]
      exact h

theorem parseDouble_take (data : List Char) (c : Nat) (r : RedisReply) (m : Nat)
    (h : parseDouble data = .ok (c, r)) (hm : c ≤ m) :
    parseDouble (data.take m) = .ok (c, r) := by
  cases hf : findCRLF data 1 with
  | none => simp only [parseDouble, hf] at h; simp at h
  | some p =>
      simp only [parseDouble, hf] at h
      have hb := findCRLF_some_lt data 1 p hf
      have hcle : p + 2 ≤ m := by
        by_cases hs : stodAccepts ((data.drop 1).take (p - 1))
        · rw [if_pos hs] at h
          simp only [Except.ok.injEq, Prod.mk.injEq] at h
          omega
        · rw [if_neg hs] at h; simp at h
      simp only [parseDouble, findCRLF_take data 1 p m hf hcle,
          List.drop_take, List.take_take]
      have hmin : min (p - 1) (m - 1) = p - 1 := by omega
      rw [hmin]
      exact h

theorem parseDouble_take_lt (data : List Char) (c : Nat) (r : RedisReply) (m : Nat)
    (h : parseDouble data = .ok (c, r)) (hm : m < c) :
    parseDouble (data.take m) = .error .Incomplete := by
  cases hf : findCRLF data 1 with
  | none => simp only [parseDouble, hf] at h; simp at h
  | some p =>
      simp only [parseDouble, hf] at h
      have hmle : m ≤ p + 1 := by
        by_cases hs : stodAccepts ((data.drop 1).take (p - 1))
        · rw [if_pos hs] at h
          simp only [Except.ok.injEq, Prod.mk.injEq] at h
          omega
        · rw [if_neg hs] at h; simp at h
      simp only [parseDouble, findCRLF_take_none data 1 p m hf hmle]



theorem parseBoolean_ok_len (data : List Char) (c : Nat) (r : RedisReply)
    (h : parseBoolean data = .ok (c, r)) : c = 4 ∧ 4 ≤ data.length := by
  rw [parseBoolean] at h
  split at h
  · simp at h
  · rename_i hlen4
    split at h
    · simp at h
    · split at h
      · simp only [Except.ok.injEq, Prod.mk.injEq] at h
        omega
      · simp at h

theorem parseBoolean_ok_intro (data data' : List Char) (c : Nat) (r : RedisReply)
    (h : parseBoolean data = .ok (c, r))
    (hlen : ¬ data'.length < 4)
    (h1 : data'.get? 1 = data.get? 1) (h2 : data'.get? 2 = data.get? 2)
    (h3 : data'.get? 3 = data.get? 3) : parseBoolean data' = .ok (c, r) := by
  rw [parseBoolean] at h
  split at h
  · simp at h
  · rename_i hlen4
    rw [parseBoolean, if_neg hlen, h1, h2, h3]
    split at h
    · simp at h
    · exact h

theorem parseBoolean_bounds (data : List Char) (c : Nat) (r : RedisReply)
    (h : parseBoolean data = .ok (c, r)) : 1 ≤ c ∧ c ≤ data.length := by
  have := parseBoolean_ok_len data c r h
  omega

theorem parseBoolean_append (data ext : List Char) (c : Nat) (r : RedisReply)
    (h : parseBoolean data = .ok (c, r)) : parseBoolean (data ++ ext) = .ok (c, r) := by
  have hl := parseBoolean_ok_len data c r h
  refine parseBoolean_ok_intro data (data ++ ext) c r h ?_ ?_ ?_ ?_
  · simp only [List.length_append]; omega
  · exact List.get?_append (by omega)
  · exact List.get?_append (by omega)
  · exact List.get?_append (by omega)

theorem parseBoolean_take (data : List Char) (c : Nat) (r : RedisReply) (m : Nat)
    (h : parseBoolean data = .ok (c, r)) (hm : c ≤ m) :
    parseBoolean (data.take m) = .ok (c, r) := by
  have hl := parseBoolean_ok_len data c r h
  refine parseBoolean_ok_intro data (data.take m) c r h ?_ ?_ ?_ ?_
  · simp only [List.length_take]; omega
  · exact List.get?_take (by omega)
  · exact List.get?_take (by omega)
  · exact List.get?_take (by omega)

theorem parseBoolean_take_lt (data : List Char) (c : Nat) (r : RedisReply) (m : Nat)
    (h : parseBoolean data = .ok (c, r)) (hm : m < c) :
    parseBoolean (data.take m) = .error .Incomplete := by
  have hl := parseBoolean_ok_len data c r h
  rw [parseBoolean, if_pos (by simp only [List.length_take]; omega)]

theorem parseBulkString_bounds (data : List Char) (c : Nat) (r : RedisReply)
    (h : parseBulkString data = .ok (c, r)) : 1 ≤ c ∧ c ≤ data.length := by
  cases hf : findCRLF data 1 with
  | none => simp only [parseBulkString, hf] at h; simp at h
  | some p =>
      simp only [parseBulkString, hf] at h
      have hb := findCRLF_some_lt data 1 p hf
      cases hv : parseIntegerValue ((data.drop 1).take (p - 1)) with
      | error e => simp only [hv] at h; simp at h
      | ok v =>
          simp only [hv] at h
          split at h
          · simp only [Except.ok.injEq, Prod.mk.injEq] at h
            omega
          · split at h
            · simp at h
            · split at h
              · simp at h
              · rename_i hlen
                split at h
                · simp only [Except.ok.injEq, Prod.mk.injEq] at h
                  omega
                · simp at h



theorem parseBulkString_append (data ext : List Char) (c : Nat) (r : RedisReply)
    (h : parseBulkString data = .ok (c, r)) : parseBulkString (data ++ ext) = .ok (c, r) := by
  cases hf : findCRLF data 1 with
  | none => simp only [parseBulkString, hf] at h; simp at h
  | some p =>
      simp only [parseBulkString, hf] at h
      have hb := findCRLF_some_lt data 1 p hf
      simp only [parseBulkString, findCRLF_append data ext 1 p hf,
          List.drop_append_of_le_length (show 1 ≤ data.length by omega),
          List.take_append_of_le_length
            (show p - 1 ≤ (List.drop 1 data).length by simp only [List.length_drop]; omega)]
      cases hv : parseIntegerValue ((data.drop 1).take (p - 1)) with
      | error e => simp only [hv] at h; simp at h
      | ok v =>
          simp only [hv] at h ⊢
          split at h
          · rename_i hm1
            rw [if_pos hm1]
            exact h
          · rename_i hm1
            rw [if_neg hm1]
            split at h
            · simp at h
            · rename_i hneg
              rw [if_neg hneg]
              split at h
              · simp at h
              · rename_i hlen
                split at h
                · rename_i hcr
                  have hgt : ¬ p + 2 + v.toNat + 2 > (data ++ ext).length := by
                    simp only [List.length_append]; omega
                  rw [if_neg hgt,
                      List.get?_append (show p + 2 + v.toNat < data.length by omega),
                      List.get?_append (show p + 2 + v.toNat + 1 < data.length by omega),
                      if_pos hcr,
                      List.drop_append_of_le_length (show p + 2 ≤ data.length by omega),
                      List.take_append_of_le_length
                        (show v.toNat ≤ (List.drop (p + 2) data).length by
                          simp only [List.length_drop]; omega)]
                  exact h
                · simp at h

theorem parseBulkString_take (data : List Char) (c : Nat) (r : RedisReply) (m : Nat)
    (h : parseBulkString data = .ok (c, r)) (hm : c ≤ m) :
    parseBulkString (data.take m) = .ok (c, r) := by
  cases hf : findCRLF data 1 with
  | none => simp only [parseBulkString, hf] at h; simp at h
  | some p =>
      simp only [parseBulkString, hf] at h
      have hb := findCRLF_some_lt data 1 p hf
      cases hv : parseIntegerValue ((data.drop 1).take (p - 1)) with
      | error e => simp only [hv] at h; simp at h
      | ok v =>
          simp only [hv] at h
          have hple : p + 2 ≤ c := by
            split at h
            · simp only [Except.ok.injEq, Prod.mk.injEq] at h; omega
            · split at h
              · simp at h
              · split at h
                · simp at h
                · split at h
                  · simp only [Except.ok.injEq, Prod.mk.injEq] at h; omega
                  · simp at h
          simp only [parseBulkString, findCRLF_take data 1 p m hf (by omega),
              List.drop_take, List.take_take,
              show min (p - 1) (m - 1) = p - 1 from by omega, hv]
          split at h
          · rename_i hm1
            rw [if_pos hm1]
            exact h
          · rename_i hm1
            rw [if_neg hm1]
            split at h
            · simp at h
            · rename_i hneg
              rw [if_neg hneg]
              split at h
              · simp at h
              · rename_i hlen
                split at h
                · rename_i hcr
                  simp only [Except.ok.injEq, Prod.mk.injEq] at h
                  have hgt : ¬ p + 2 + v.toNat + 2 > (data.take m).length := by
                    simp only [List.length_take]; omega
                  rw [if_neg hgt,
                      List.get?_take (show p + 2 + v.toNat < m by omega),
                      List.get?_take (show p + 2 + v.toNat + 1 < m by omega),
                      if_pos hcr,
                      show v.toNat ⊓ (m - (p + 2)) = v.toNat from by omega]
                  simp only [Except.ok.injEq, Prod.mk.injEq]
                  exact h
                · simp at h

theorem parseBulkString_take_lt (data : List Char) (c : Nat) (r : RedisReply) (m : Nat)
    (h : parseBulkString data = .ok (c, r)) (hm : m < c) :
    parseBulkString (data.take m) = .error .Incomplete := by
  cases hf : findCRLF data 1 with
  | none => simp only [parseBulkString, hf] at h; simp at h
  | some p =>
      simp only [parseBulkString, hf] at h
      have hb := findCRLF_some_lt data 1 p hf
      cases hv : parseIntegerValue ((data.drop 1).take (p - 1)) with
      | error e => simp only [hv] at h; simp at h
      | ok v =>
          simp only [hv] at h
          by_cases hmp : m ≤ p + 1
          · simp only [parseBulkString, findCRLF_take_none data 1 p m hf hmp]
          · have hcm : p + 2 ≤ m := by omega
            simp only [parseBulkString, findCRLF_take data 1 p m hf hcm,
                List.drop_take, List.take_take,
                show min (p - 1) (m - 1) = p - 1 from by omega, hv]
            split at h
            · simp only [Except.ok.injEq, Prod.mk.injEq] at h
              omega
            · rename_i hm1
              rw [if_neg hm1]
              split at h
              · simp at h
              · rename_i hneg
                rw [if_neg hneg]
                split at h
                · simp at h
                · rename_i hlen
                  split at h
                  · simp only [Except.ok.injEq, Prod.mk.injEq] at h
                    rw [if_pos (by simp only [List.length_take]; omega)]
                  · simp at h




theorem parse_nil : parse [] = .error .Incomplete := by rw [parse]

theorem parse_cons_plus (tl : List Char) : parse ('+' :: tl) = parseSimpleString ('+' :: tl) := by
  rw [parse]; simp

theorem parse_cons_minus (tl : List Char) : parse ('-' :: tl) = parseErrorReply ('-' :: tl) := by
  rw [parse]; simp

theorem parse_cons_colon (tl : List Char) : parse (':' :: tl) = parseInteger (':' :: tl) := by
  rw [parse]; simp

theorem parse_cons_dollar (tl : List Char) : parse ('$' :: tl) = parseBulkString ('$' :: tl) := by
  rw [parse]; simp

theorem parse_cons_star (tl : List Char) : parse ('*' :: tl) = parseArray ('*' :: tl) := by
  rw [parse]; simp

theorem parse_cons_comma (tl : List Char) : parse (',' :: tl) = parseDouble (',' :: tl) := by
  rw [parse]; simp

theorem parse_cons_hash (tl : List Char) : parse ('#' :: tl) = parseBoolean ('#' :: tl) := by
  rw [parse]; simp

theorem parse_cons_percent (tl : List Char) : parse ('%' :: tl) = parseMap ('%' :: tl) := by
  rw [parse]; simp

theorem parse_cons_tilde (tl : List Char) : parse ('~' :: tl) = parseSet ('~' :: tl) := by
  rw [parse]; simp

theorem parse_cons_other (c : Char) (tl : List Char)
    (h1 : ¬ c = '+') (h2 : ¬ c = '-') (h3 : ¬ c = ':') (h4 : ¬ c = '$') (h5 : ¬ c = '*')
    (h6 : ¬ c = ',') (h7 : ¬ c = '#') (h8 : ¬ c = '%') (h9 : ¬ c = '~') :
    parse (c :: tl) = .error .InvalidType := by
  rw [parse]
  simp [h1, h2, h3, h4, h5, h6, h7, h8, h9]

theorem parseArray_of_crlf_none (data : List Char) (hf : findCRLF data 1 = none) :
    parseArray data = .error .Incomplete := by
  rw [parseArray]
  split
  · rfl
  · rename_i p heq
    rw [hf] at heq
    cases heq

theorem parseArray_of_crlf_some (data : List Char) (p : Nat) (hf : findCRLF data 1 = some p) :
    parseArray data =
      (match parseIntegerValue ((data.drop 1).take (p - 1)) with
       | .error e => .error e
       | .ok v =>
           if v = -1 then .ok (p + 2, .null)
           else if v < 0 then .error .InvalidLength
           else match parseElems (data.drop (p + 2)) v.toNat with
                | .error e => .error e
                | .ok (c0, elems) => .ok (p + 2 + c0, .array elems)) := by
  rw [parseArray]
  split
  · rename_i heq
    rw [hf] at heq
    cases heq
  · rename_i p' heq
    rw [hf] at heq
    injection heq with heq2
    subst heq2
    rfl

theorem parseMap_of_crlf_none (data : List Char) (hf : findCRLF data 1 = none) :
    parseMap data = .error .Incomplete := by
  rw [parseMap]
  split
  · rfl
  · rename_i p heq
    rw [hf] at heq
    cases heq

theorem parseMap_of_crlf_some (data : List Char) (p : Nat) (hf : findCRLF data 1 = some p) :
    parseMap data =
      (match parseIntegerValue ((data.drop 1).take (p - 1)) with
       | .error e => .error e
       | .ok v =>
           if v < 0 then .error .InvalidLength
           else match parsePairs (data.drop (p + 2)) v.toNat with
                | .error e => .error e
                | .ok (c0, pairs) => .ok (p + 2 + c0, .map pairs)) := by
  rw [parseMap]
  split
  · rename_i heq
    rw [hf] at heq
    cases heq
  · rename_i p' heq
    rw [hf] at heq
    injection heq with heq2
    subst heq2
    rfl

theorem parseSet_of_crlf_none (data : List Char) (hf : findCRLF data 1 = none) :
    parseSet data = .error .Incomplete := by
  rw [parseSet]
  split
  · rfl
  · rename_i p heq
    rw [hf] at heq
    cases heq

theorem parseSet_of_crlf_some (data : List Char) (p : Nat) (hf : findCRLF data 1 = some p) :
    parseSet data =
      (match parseIntegerValue ((data.drop 1).take (p - 1)) with
       | .error e => .error e
       | .ok v =>
           if v < 0 then .error .InvalidLength
           else match parseElems (data.drop (p + 2)) v.toNat with
                | .error e => .error e
                | .ok (c0, elems) => .ok (p + 2 + c0, .set elems)) := by
  rw [parseSet]
  split
  · rename_i heq
    rw [hf] at heq
    cases heq
  · rename_i p' heq
    rw [hf] at heq
    injection heq with heq2
    subst heq2
    rfl

theorem parseElems_zero (rest : List Char) : parseElems rest 0 = .ok (0, []) := by
  rw [parseElems]

theorem parseElems_succ (rest : List Char) (k : Nat) :
    parseElems rest (k + 1) =
      (if rest.isEmpty then .error .Incomplete
       else match parse rest with
            | .error e => .error e
            | .ok (consumed, elem) =>
                match parseElems (rest.drop consumed) k with
                | .error e => .error e
                | .ok (c2, elems) => .ok (consumed + c2, elem :: elems)) := by
  rw [parseElems]

theorem parsePairs_zero (rest : List Char) : parsePairs rest 0 = .ok (0, []) := by
  rw [parsePairs]

theorem parsePairs_succ (rest : List Char) (k : Nat) :
    parsePairs rest (k + 1) =
      (if rest.isEmpty then .error .Incomplete
       else match parse rest with
            | .error e => .error e
            | .ok (ck, key) =>
                if (rest.drop ck).isEmpty then .error .Incomplete
                else match parse (rest.drop ck) with
                     | .error e => .error e
                     | .ok (cv, val) =>
                         match parsePairs ((rest.drop ck).drop cv) k with
                         | .error e => .error e
                         | .ok (c2, pairs) => .ok (ck + cv + c2, (key, val) :: pairs)) := by
  rw [parsePairs]




theorem parse_bounds_mutual :
    (∀ data c r, parse data = Except.ok (c, r) → 1 ≤ c ∧ c ≤ data.length) ∧
    (∀ data c r, parseSet data = Except.ok (c, r) → 1 ≤ c ∧ c ≤ data.length) ∧
    (∀ rest count c es, parseElems rest count = Except.ok (c, es) → c ≤ rest.length) ∧
    (∀ data c r, parseMap data = Except.ok (c, r) → 1 ≤ c ∧ c ≤ data.length) ∧
    (∀ rest count c ps, parsePairs rest count = Except.ok (c, ps) → c ≤ rest.length) ∧
    (∀ data c r, parseArray data = Except.ok (c, r) → 1 ≤ c ∧ c ≤ data.length) := by
  refine parse.mutual_induct _ _ _ _ _ _ ?_ ?_ ?_ ?_ ?_ ?_ ?_ ?_ ?_ ?_ ?_ ?_ ?_ ?_ ?_ ?_ ?_ ?_ ?_ ?_ ?_ ?_ ?_ ?_ ?_ ?_ ?_ ?_ ?_ ?_ ?_ ?_ ?_ ?_ ?_ ?_ ?_ ?_ ?_
  -- motive1 cases
  · intro c r h
    rw [parse_nil] at h
    simp at h
  · intro rest c r h
    rw [parse_cons_plus] at h
    exact parseSimpleString_bounds _ _ _ h
  · intro rest _ c r h
    rw [parse_cons_minus] at h
    exact parseErrorReply_bounds _ _ _ h
  · intro rest _ _ c r h
    rw [parse_cons_colon] at h
    exact parseInteger_bounds _ _ _ h
  · intro rest _ _ _ c r h
    rw [parse_cons_dollar] at h
    exact parseBulkString_bounds _ _ _ h
  · intro rest _ _ _ _ ih c r h
    rw [parse_cons_star] at h
    exact ih c r h
  · intro rest _ _ _ _ _ c r h
    rw [parse_cons_comma] at h
    exact parseDouble_bounds _ _ _ h
  · intro rest _ _ _ _ _ _ c r h
    rw [parse_cons_hash] at h
    exact parseBoolean_bounds _ _ _ h
  · intro rest _ _ _ _ _ _ _ ih c r h
    rw [parse_cons_percent] at h
    exact ih c r h
  · intro rest _ _ _ _ _ _ _ _ ih c r h
    rw [parse_cons_tilde] at h
    exact ih c r h
  · intro c rest h1 h2 h3 h4 h5 h6 h7 h8 h9 cc rr h
    rw [parse_cons_other c rest h1 h2 h3 h4 h5 h6 h7 h8 h9] at h
    simp at h
  -- motive2 (parseSet) cases
  · intro data hf c r h
    rw [parseSet_of_crlf_none data hf] at h
    simp at h
  · intro data p hf e hv c r h
    rw [parseSet_of_crlf_some data p hf] at h
    simp only [hv] at h
    simp at h
  · intro data p hf v hv hneg c r h
    rw [parseSet_of_crlf_some data p hf] at h
    simp only [hv, if_pos hneg] at h
    simp at h
  · intro data p hf v hv hneg e helems ih c r h
    rw [parseSet_of_crlf_some data p hf] at h
    simp only [hv, if_neg hneg, helems] at h
    simp at h
  · intro data p hf v hv hneg c0 elems helems ih c r h
    rw [parseSet_of_crlf_some data p hf] at h
    simp only [hv, if_neg hneg, helems, Except.ok.injEq, Prod.mk.injEq] at h
    have hb := findCRLF_some_lt data 1 p hf
    have hc0 := ih c0 elems helems
    simp only [List.length_drop] at hc0
    omega
  -- motive3 (parseElems) cases
  · intro rest c es h
    rw [parseElems_zero] at h
    simp only [Except.ok.injEq, Prod.mk.injEq] at h
    omega
  · intro rest k hemp c es h
    rw [parseElems_succ, if_pos hemp] at h
    simp at h
  · intro rest k hemp e hp ih c es h
    rw [parseElems_succ, if_neg hemp] at h
    simp only [hp] at h
    simp at h
  · intro rest k hemp consumed elem hp e helems ih1 ih2 c es h
    rw [parseElems_succ, if_neg hemp] at h
    simp only [hp, helems] at h
    simp at h
  · intro rest k hemp consumed elem hp c2 elems helems ih1 ih2 c es h
    rw [parseElems_succ, if_neg hemp] at h
    simp only [hp, helems, Except.ok.injEq, Prod.mk.injEq] at h
    have h1 := ih1 consumed elem hp
    have h2 := ih2 c2 elems helems
    simp only [List.length_drop] at h2
    omega
  -- motive4 (parseMap) cases
  · intro data hf c r h
    rw [parseMap_of_crlf_none data hf] at h
    simp at h
  · intro data p hf e hv c r h
    rw [parseMap_of_crlf_some data p hf] at h
    simp only [hv] at h
    simp at h
  · intro data p hf v hv hneg c r h
    rw [parseMap_of_crlf_some data p hf] at h
    simp only [hv, if_pos hneg] at h
    simp at h
  · intro data p hf v hv hneg e hpairs ih c r h
    rw [parseMap_of_crlf_some data p hf] at h
    simp only [hv, if_neg hneg, hpairs] at h
    simp at h
  · intro data p hf v hv hneg c0 pairs hpairs ih c r h
    rw [parseMap_of_crlf_some data p hf] at h
    simp only [hv, if_neg hneg, hpairs, Except.ok.injEq, Prod.mk.injEq] at h
    have hb := findCRLF_some_lt data 1 p hf
    have hc0 := ih c0 pairs hpairs
    simp only [List.length_drop] at hc0
    omega
  -- motive5 (parsePairs) cases
  · intro rest c ps h
    rw [parsePairs_zero] at h
    simp only [Except.ok.injEq, Prod.mk.injEq] at h
    omega
  · intro rest k hemp c ps h
    rw [parsePairs_succ, if_pos hemp] at h
    simp at h
  · intro rest k hemp e hp ih c ps h
    rw [parsePairs_succ, if_neg hemp] at h
    simp only [hp] at h
    simp at h
  · intro rest k hemp ck key hp hemp2 ih c ps h
    rw [parsePairs_succ, if_neg hemp] at h
    simp only [hp, if_pos hemp2] at h
    simp at h
  · intro rest k hemp ck key hp hemp2 e hp2 ih1 ih2 c ps h
    rw [parsePairs_succ, if_neg hemp] at h
    simp only [hp, if_neg hemp2, hp2] at h
    simp at h
  · intro rest k hemp ck key hp hemp2 cv val hp2 e hpairs ih1 ih2 ih3 c ps h
    rw [parsePairs_succ, if_neg hemp] at h
    simp only [hp, if_neg hemp2, hp2, hpairs] at h
    simp at h
  · intro rest k hemp ck key hp hemp2 cv val hp2 c2 pairs hpairs ih1 ih2 ih3 c ps h
    rw [parsePairs_succ, if_neg hemp] at h
    simp only [hp, if_neg hemp2, hp2, hpairs, Except.ok.injEq, Prod.mk.injEq] at h
    have h1 := ih1 ck key hp
    have h2 := ih2 cv val hp2
    have h3 := ih3 c2 pairs hpairs
    simp only [List.length_drop] at h2 h3
    omega
  -- motive6 (parseArray) cases
  · intro data hf c r h
    rw [parseArray_of_crlf_none data hf] at h
    simp at h
  · intro data p hf e hv c r h
    rw [parseArray_of_crlf_some data p hf] at h
    simp only [hv] at h
    simp at h
  · intro data p hf hv c r h
    rw [parseArray_of_crlf_some data p hf] at h
    simp only [hv, reduceIte, Except.ok.injEq, Prod.mk.injEq] at h
    have hb := findCRLF_some_lt data 1 p hf
    omega
  · intro data p hf v hv hne hneg c r h
    rw [parseArray_of_crlf_some data p hf] at h
    simp only [hv, if_neg hne, if_pos hneg] at h
    simp at h
  · intro data p hf v hv hne hneg e helems ih c r h
    rw [parseArray_of_crlf_some data p hf] at h
    simp only [hv, if_neg hne, if_neg hneg, helems] at h
    simp at h
  · intro data p hf v hv hne hneg c0 elems helems ih c r h
    rw [parseArray_of_crlf_some data p hf] at h
    simp only [hv, if_neg hne, if_neg hneg, helems, Except.ok.injEq, Prod.mk.injEq] at h
    have hb := findCRLF_some_lt data 1 p hf
    have hc0 := ih c0 elems helems
    simp only [List.length_drop] at hc0
    omega


/-- Every successful parse consumes at least one and at most all bytes. -/
theorem parse_consumed_bounds (data : List Char) (c : Nat) (r : RedisReply)
    (h : parse data = Except.ok (c, r)) : 1 ≤ c ∧ c ≤ data.length :=
  parse_bounds_mutual.1 data c r h



theorem append_not_isEmpty (l e : List Char) (h : ¬ l.isEmpty = true) :
    ¬ (l ++ e).isEmpty = true := by
  simp only [List.isEmpty_iff] at h ⊢
  simp only [List.append_eq_nil]
  intro hc
  exact h hc.1

theorem take_not_isEmpty (l : List Char) (m : Nat) (hm : 1 ≤ m) (h : ¬ l.isEmpty = true) :
    ¬ (l.take m).isEmpty = true := by
  simp only [List.isEmpty_iff] at h ⊢
  cases l with
  | nil => exact absurd rfl h
  | cons a t =>
      match m, hm with
      | q + 1, _ => simp [List.take_succ_cons]


theorem parse_append_mutual :
    (∀ data c r, parse data = Except.ok (c, r) → ∀ ext, parse (data ++ ext) = Except.ok (c, r)) ∧
    (∀ data c r, parseSet data = Except.ok (c, r) → ∀ ext, parseSet (data ++ ext) = Except.ok (c, r)) ∧
    (∀ rest count c es, parseElems rest count = Except.ok (c, es) →
        ∀ ext, parseElems (rest ++ ext) count = Except.ok (c, es)) ∧
    (∀ data c r, parseMap data = Except.ok (c, r) → ∀ ext, parseMap (data ++ ext) = Except.ok (c, r)) ∧
    (∀ rest count c ps, parsePairs rest count = Except.ok (c, ps) →
        ∀ ext, parsePairs (rest ++ ext) count = Except.ok (c, ps)) ∧
    (∀ data c r, parseArray data = Except.ok (c, r) → ∀ ext, parseArray (data ++ ext) = Except.ok (c, r)) := by
  refine parse.mutual_induct _ _ _ _ _ _ ?_ ?_ ?_ ?_ ?_ ?_ ?_ ?_ ?_ ?_ ?_ ?_ ?_ ?_ ?_ ?_ ?_ ?_ ?_ ?_ ?_ ?_ ?_ ?_ ?_ ?_ ?_ ?_ ?_ ?_ ?_ ?_ ?_ ?_ ?_ ?_ ?_ ?_ ?_
  -- motive1 cases
  · intro c r h
    rw [parse_nil] at h
    simp at h
  · intro rest c r h ext
    rw [parse_cons_plus] at h
    rw [List.cons_append, parse_cons_plus, ← List.cons_append]
    exact parseSimpleString_append _ _ _ _ h
  · intro rest _ c r h ext
    rw [parse_cons_minus] at h
    rw [List.cons_append, parse_cons_minus, ← List.cons_append]
    exact parseErrorReply_append _ _ _ _ h
  · intro rest _ _ c r h ext
    rw [parse_cons_colon] at h
    rw [List.cons_append, parse_cons_colon, ← List.cons_append]
    exact parseInteger_append _ _ _ _ h
  · intro rest _ _ _ c r h ext
    rw [parse_cons_dollar] at h
    rw [List.cons_append, parse_cons_dollar, ← List.cons_append]
    exact parseBulkString_append _ _ _ _ h
  · intro rest _ _ _ _ ih c r h ext
    rw [parse_cons_star] at h
    rw [List.cons_append, parse_cons_star, ← List.cons_append]
    exact ih c r h ext
  · intro rest _ _ _ _ _ c r h ext
    rw [parse_cons_comma] at h
    rw [List.cons_append, parse_cons_comma, ← List.cons_append]
    exact parseDouble_append _ _ _ _ h
  · intro rest _ _ _ _ _ _ c r h ext
    rw [parse_cons_hash] at h
    rw [List.cons_append, parse_cons_hash, ← List.cons_append]
    exact parseBoolean_append _ _ _ _ h
  · intro rest _ _ _ _ _ _ _ ih c r h ext
    rw [parse_cons_percent] at h
    rw [List.cons_append, parse_cons_percent, ← List.cons_append]
    exact ih c r h ext
  · intro rest _ _ _ _ _ _ _ _ ih c r h ext
    rw [parse_cons_tilde] at h
    rw [List.cons_append, parse_cons_tilde, ← List.cons_append]
    exact ih c r h ext
  · intro c rest h1 h2 h3 h4 h5 h6 h7 h8 h9 cc rr h
    rw [parse_cons_other c rest h1 h2 h3 h4 h5 h6 h7 h8 h9] at h
    simp at h
  -- motive2 (parseSet) cases
  · intro data hf c r h
    rw [parseSet_of_crlf_none data hf] at h
    simp at h
  · intro data p hf e hv c r h
    rw [parseSet_of_crlf_some data p hf] at h
    simp only [hv] at h
    simp at h
  · intro data p hf v hv hneg c r h
    rw [parseSet_of_crlf_some data p hf] at h
    simp only [hv, if_pos hneg] at h
    simp at h
  · intro data p hf v hv hneg e helems ih c r h
    rw [parseSet_of_crlf_some data p hf] at h
    simp only [hv, if_neg hneg, helems] at h
    simp at h
  · intro data p hf v hv hneg c0 elems helems ih c r h ext
    rw [parseSet_of_crlf_some data p hf] at h
    simp only [hv, if_neg hneg, helems, Except.ok.injEq, Prod.mk.injEq] at h
    have hb := findCRLF_some_lt data 1 p hf
    rw [parseSet_of_crlf_some (data ++ ext) p (findCRLF_append data ext 1 p hf),
        List.drop_append_of_le_length (show 1 ≤ data.length by omega),
        List.take_append_of_le_length
          (show p - 1 ≤ (List.drop 1 data).length by simp only [List.length_drop]; omega),
        List.drop_append_of_le_length (show p + 2 ≤ data.length by omega)]
    simp only [hv, if_neg hneg, ih c0 elems helems ext]
    exact (by simp only [Except.ok.injEq, Prod.mk.injEq]; exact h)
  -- motive3 (parseElems) cases
  · intro rest c es h ext
    rw [parseElems_zero] at h
    rw [parseElems_zero]
    exact h
  · intro rest k hemp c es h
    rw [parseElems_succ, if_pos hemp] at h
    simp at h
  · intro rest k hemp e hp ih c es h
    rw [parseElems_succ, if_neg hemp] at h
    simp only [hp] at h
    simp at h
  · intro rest k hemp consumed elem hp e helems ih1 ih2 c es h
    rw [parseElems_succ, if_neg hemp] at h
    simp only [hp, helems] at h
    simp at h
  · intro rest k hemp consumed elem hp c2 elems helems ih1 ih2 c es h ext
    rw [parseElems_succ, if_neg hemp] at h
    simp only [hp, helems, Except.ok.injEq, Prod.mk.injEq] at h
    have hbnd := parse_bounds_mutual.1 rest consumed elem hp
    rw [parseElems_succ,
        if_neg (append_not_isEmpty rest ext hemp)]
    simp only [ih1 consumed elem hp ext,
        List.drop_append_of_le_length (show consumed ≤ rest.length by omega),
        ih2 c2 elems helems ext]
    exact (by simp only [Except.ok.injEq, Prod.mk.injEq]; exact h)
  -- motive4 (parseMap) cases
  · intro data hf c r h
    rw [parseMap_of_crlf_none data hf] at h
    simp at h
  · intro data p hf e hv c r h
    rw [parseMap_of_crlf_some data p hf] at h
    simp only [hv] at h
    simp at h
  · intro data p hf v hv hneg c r h
    rw [parseMap_of_crlf_some data p hf] at h
    simp only [hv, if_pos hneg] at h
    simp at h
  · intro data p hf v hv hneg e hpairs ih c r h
    rw [parseMap_of_crlf_some data p hf] at h
    simp only [hv, if_neg hneg, hpairs] at h
    simp at h
  · intro data p hf v hv hneg c0 pairs hpairs ih c r h ext
    rw [parseMap_of_crlf_some data p hf] at h
    simp only [hv, if_neg hneg, hpairs, Except.ok.injEq, Prod.mk.injEq] at h
    have hb := findCRLF_some_lt data 1 p hf
    rw [parseMap_of_crlf_some (data ++ ext) p (findCRLF_append data ext 1 p hf),
        List.drop_append_of_le_length (show 1 ≤ data.length by omega),
        List.take_append_of_le_length
          (show p - 1 ≤ (List.drop 1 data).length by simp only [List.length_drop]; omega),
        List.drop_append_of_le_length (show p + 2 ≤ data.length by omega)]
    simp only [hv, if_neg hneg, ih c0 pairs hpairs ext]
    exact (by simp only [Except.ok.injEq, Prod.mk.injEq]; exact h)
  -- motive5 (parsePairs) cases
  · intro rest c ps h ext
    rw [parsePairs_zero] at h
    rw [parsePairs_zero]
    exact h
  · intro rest k hemp c ps h
    rw [parsePairs_succ, if_pos hemp] at h
    simp at h
  · intro rest k hemp e hp ih c ps h
    rw [parsePairs_succ, if_neg hemp] at h
    simp only [hp] at h
    simp at h
  · intro rest k hemp ck key hp hemp2 ih c ps h
    rw [parsePairs_succ, if_neg hemp] at h
    simp only [hp, if_pos hemp2] at h
    simp at h
  · intro rest k hemp ck key hp hemp2 e hp2 ih1 ih2 c ps h
    rw [parsePairs_succ, if_neg hemp] at h
    simp only [hp, if_neg hemp2, hp2] at h
    simp at h
  · intro rest k hemp ck key hp hemp2 cv val hp2 e hpairs ih1 ih2 ih3 c ps h
    rw [parsePairs_succ, if_neg hemp] at h
    simp only [hp, if_neg hemp2, hp2, hpairs] at h
    simp at h
  · intro rest k hemp ck key hp hemp2 cv val hp2 c2 pairs hpairs ih1 ih2 ih3 c ps h ext
    rw [parsePairs_succ, if_neg hemp] at h
    simp only [hp, if_neg hemp2, hp2, hpairs, Except.ok.injEq, Prod.mk.injEq] at h
    have hbk := parse_bounds_mutual.1 rest ck key hp
    have hbv := parse_bounds_mutual.1 (rest.drop ck) cv val hp2
    simp only [List.length_drop] at hbv
    have hdk : (rest ++ ext).drop ck = rest.drop ck ++ ext :=
      List.drop_append_of_le_length (by omega)
    rw [parsePairs_succ,
        if_neg (append_not_isEmpty rest ext hemp)]
    simp only [ih1 ck key hp ext, hdk,
        if_neg (append_not_isEmpty (rest.drop ck) ext hemp2),
        ih2 cv val hp2 ext,
        List.drop_append_of_le_length (show cv ≤ (rest.drop ck).length by
          simp only [List.length_drop]; omega),
        ih3 c2 pairs hpairs ext]
    exact (by simp only [Except.ok.injEq, Prod.mk.injEq]; exact h)
  -- motive6 (parseArray) cases
  · intro data hf c r h
    rw [parseArray_of_crlf_none data hf] at h
    simp at h
  · intro data p hf e hv c r h
    rw [parseArray_of_crlf_some data p hf] at h
    simp only [hv] at h
    simp at h
  · intro data p hf hv c r h ext
    rw [parseArray_of_crlf_some data p hf] at h
    simp only [hv, reduceIte, Except.ok.injEq, Prod.mk.injEq] at h
    have hb := findCRLF_some_lt data 1 p hf
    rw [parseArray_of_crlf_some (data ++ ext) p (findCRLF_append data ext 1 p hf),
        List.drop_append_of_le_length (show 1 ≤ data.length by omega),
        List.take_append_of_le_length
          (show p - 1 ≤ (List.drop 1 data).length by simp only [List.length_drop]; omega)]
    simp only [hv, reduceIte]
    exact (by simp only [Except.ok.injEq, Prod.mk.injEq]; exact h)
  · intro data p hf v hv hne hneg c r h
    rw [parseArray_of_crlf_some data p hf] at h
    simp only [hv, if_neg hne, if_pos hneg] at h
    simp at h
  · intro data p hf v hv hne hneg e helems ih c r h
    rw [parseArray_of_crlf_some data p hf] at h
    simp only [hv, if_neg hne, if_neg hneg, helems] at h
    simp at h
  · intro data p hf v hv hne hneg c0 elems helems ih c r h ext
    rw [parseArray_of_crlf_some data p hf] at h
    simp only [hv, if_neg hne, if_neg hneg, helems, Except.ok.injEq, Prod.mk.injEq] at h
    have hb := findCRLF_some_lt data 1 p hf
    rw [parseArray_of_crlf_some (data ++ ext) p (findCRLF_append data ext 1 p hf),
        List.drop_append_of_le_length (show 1 ≤ data.length by omega),
        List.take_append_of_le_length
          (show p - 1 ≤ (List.drop 1 data).length by simp only [List.length_drop]; omega),
        List.drop_append_of_le_length (show p + 2 ≤ data.length by omega)]
    simp only [hv, if_neg hne, if_neg hneg, ih c0 elems helems ext]
    exact (by simp only [Except.ok.injEq, Prod.mk.injEq]; exact h)


/-- Extension stability: a successful parse is unaffected by appended bytes. -/
theorem parse_append_ok (data ext : List Char) (c : Nat) (r : RedisReply)
    (h : parse data = Except.ok (c, r)) : parse (data ++ ext) = Except.ok (c, r) :=
  parse_append_mutual.1 data c r h ext



theorem parse_take_mutual :
    (∀ data c r, parse data = Except.ok (c, r) → ∀ m, c ≤ m → parse (data.take m) = Except.ok (c, r)) ∧
    (∀ data c r, parseSet data = Except.ok (c, r) → ∀ m, c ≤ m → parseSet (data.take m) = Except.ok (c, r)) ∧
    (∀ rest count c es, parseElems rest count = Except.ok (c, es) →
        ∀ m, c ≤ m → parseElems (rest.take m) count = Except.ok (c, es)) ∧
    (∀ data c r, parseMap data = Except.ok (c, r) → ∀ m, c ≤ m → parseMap (data.take m) = Except.ok (c, r)) ∧
    (∀ rest count c ps, parsePairs rest count = Except.ok (c, ps) →
        ∀ m, c ≤ m → parsePairs (rest.take m) count = Except.ok (c, ps)) ∧
    (∀ data c r, parseArray data = Except.ok (c, r) → ∀ m, c ≤ m → parseArray (data.take m) = Except.ok (c, r)) := by
  refine parse.mutual_induct _ _ _ _ _ _ ?_ ?_ ?_ ?_ ?_ ?_ ?_ ?_ ?_ ?_ ?_ ?_ ?_ ?_ ?_ ?_ ?_ ?_ ?_ ?_ ?_ ?_ ?_ ?_ ?_ ?_ ?_ ?_ ?_ ?_ ?_ ?_ ?_ ?_ ?_ ?_ ?_ ?_ ?_
  -- motive1 cases
  · intro c r h
    rw [parse_nil] at h
    simp at h
  · intro rest c r h m hm
    rw [parse_cons_plus] at h
    have hb := parseSimpleString_bounds _ _ _ h
    obtain ⟨q, rfl⟩ : ∃ q, m = q + 1 := ⟨m - 1, by omega⟩
    have h2 := parseSimpleString_take _ _ _ (q + 1) h hm
    rw [List.take_succ_cons] at h2
    rw [List.take_succ_cons, parse_cons_plus]
    exact h2
  · intro rest _ c r h m hm
    rw [parse_cons_minus] at h
    have hb := parseErrorReply_bounds _ _ _ h
    obtain ⟨q, rfl⟩ : ∃ q, m = q + 1 := ⟨m - 1, by omega⟩
    have h2 := parseErrorReply_take _ _ _ (q + 1) h hm
    rw [List.take_succ_cons] at h2
    rw [List.take_succ_cons, parse_cons_minus]
    exact h2
  · intro rest _ _ c r h m hm
    rw [parse_cons_colon] at h
    have hb := parseInteger_bounds _ _ _ h
    obtain ⟨q, rfl⟩ : ∃ q, m = q + 1 := ⟨m - 1, by omega⟩
    have h2 := parseInteger_take _ _ _ (q + 1) h hm
    rw [List.take_succ_cons] at h2
    rw [List.take_succ_cons, parse_cons_colon]
    exact h2
  · intro rest _ _ _ c r h m hm
    rw [parse_cons_dollar] at h
    have hb := parseBulkString_bounds _ _ _ h
    obtain ⟨q, rfl⟩ : ∃ q, m = q + 1 := ⟨m - 1, by omega⟩
    have h2 := parseBulkString_take _ _ _ (q + 1) h hm
    rw [List.take_succ_cons] at h2
    rw [List.take_succ_cons, parse_cons_dollar]
    exact h2
  · intro rest _ _ _ _ ih c r h m hm
    rw [parse_cons_star] at h
    have hb := parse_bounds_mutual.2.2.2.2.2 _ _ _ h
    obtain ⟨q, rfl⟩ : ∃ q, m = q + 1 := ⟨m - 1, by omega⟩
    have h2 := ih c r h (q + 1) hm
    rw [List.take_succ_cons] at h2
    rw [List.take_succ_cons, parse_cons_star]
    exact h2
  · intro rest _ _ _ _ _ c r h m hm
    rw [parse_cons_comma] at h
    have hb := parseDouble_bounds _ _ _ h
    obtain ⟨q, rfl⟩ : ∃ q, m = q + 1 := ⟨m - 1, by omega⟩
    have h2 := parseDouble_take _ _ _ (q + 1) h hm
    rw [List.take_succ_cons] at h2
    rw [List.take_succ_cons, parse_cons_comma]
    exact h2
  · intro rest _ _ _ _ _ _ c r h m hm
    rw [parse_cons_hash] at h
    have hb := parseBoolean_bounds _ _ _ h
    obtain ⟨q, rfl⟩ : ∃ q, m = q + 1 := ⟨m - 1, by omega⟩
    have h2 := parseBoolean_take _ _ _ (q + 1) h hm
    rw [List.take_succ_cons] at h2
    rw [List.take_succ_cons, parse_cons_hash]
    exact h2
  · intro rest _ _ _ _ _ _ _ ih c r h m hm
    rw [parse_cons_percent] at h
    have hb := parse_bounds_mutual.2.2.2.1 _ _ _ h
    obtain ⟨q, rfl⟩ : ∃ q, m = q + 1 := ⟨m - 1, by omega⟩
    have h2 := ih c r h (q + 1) hm
    rw [List.take_succ_cons] at h2
    rw [List.take_succ_cons, parse_cons_percent]
    exact h2
  · intro rest _ _ _ _ _ _ _ _ ih c r h m hm
    rw [parse_cons_tilde] at h
    have hb := parse_bounds_mutual.2.1 _ _ _ h
    obtain ⟨q, rfl⟩ : ∃ q, m = q + 1 := ⟨m - 1, by omega⟩
    have h2 := ih c r h (q + 1) hm
    rw [List.take_succ_cons] at h2
    rw [List.take_succ_cons, parse_cons_tilde]
    exact h2
  · intro c rest h1 h2 h3 h4 h5 h6 h7 h8 h9 cc rr h
    rw [parse_cons_other c rest h1 h2 h3 h4 h5 h6 h7 h8 h9] at h
    simp at h
  -- motive2 (parseSet) cases
  · intro data hf c r h
    rw [parseSet_of_crlf_none data hf] at h
    simp at h
  · intro data p hf e hv c r h
    rw [parseSet_of_crlf_some data p hf] at h
    simp only [hv] at h
    simp at h
  · intro data p hf v hv hneg c r h
    rw [parseSet_of_crlf_some data p hf] at h
    simp only [hv, if_pos hneg] at h
    simp at h
  · intro data p hf v hv hneg e helems ih c r h
    rw [parseSet_of_crlf_some data p hf] at h
    simp only [hv, if_neg hneg, helems] at h
    simp at h
  · intro data p hf v hv hneg c0 elems helems ih c r h m hm
    rw [parseSet_of_crlf_some data p hf] at h
    simp only [hv, if_neg hneg, helems, Except.ok.injEq, Prod.mk.injEq] at h
    have hb := findCRLF_some_lt data 1 p hf
    have hc0 := parse_bounds_mutual.2.2.1 _ _ _ _ helems
    simp only [List.length_drop] at hc0
    rw [parseSet_of_crlf_some (data.take m) p (findCRLF_take data 1 p m hf (by omega)),
        List.drop_take, List.take_take,
        show (p - 1) ⊓ (m - 1) = p - 1 from by omega,
        List.drop_take]
    have helems2 := ih c0 elems helems (m - (p + 2)) (by omega)
    simp only [hv, if_neg hneg, helems2]
    exact (by simp only [Except.ok.injEq, Prod.mk.injEq]; exact h)
  -- motive3 (parseElems) cases
  · intro rest c es h m hm
    rw [parseElems_zero] at h
    rw [parseElems_zero]
    exact h
  · intro rest k hemp c es h
    rw [parseElems_succ, if_pos hemp] at h
    simp at h
  · intro rest k hemp e hp ih c es h
    rw [parseElems_succ, if_neg hemp] at h
    simp only [hp] at h
    simp at h
  · intro rest k hemp consumed elem hp e helems ih1 ih2 c es h
    rw [parseElems_succ, if_neg hemp] at h
    simp only [hp, helems] at h
    simp at h
  · intro rest k hemp consumed elem hp c2 elems helems ih1 ih2 c es h m hm
    rw [parseElems_succ, if_neg hemp] at h
    simp only [hp, helems, Except.ok.injEq, Prod.mk.injEq] at h
    have hbnd := parse_bounds_mutual.1 rest consumed elem hp
    rw [parseElems_succ, if_neg (take_not_isEmpty rest m (by omega) hemp)]
    have hp2 := ih1 consumed elem hp m (by omega)
    have helems2 := ih2 c2 elems helems (m - consumed) (by omega)
    rw [← List.drop_take] at helems2
    simp only [hp2, helems2]
    exact (by simp only [Except.ok.injEq, Prod.mk.injEq]; exact h)
  -- motive4 (parseMap) cases
  · intro data hf c r h
    rw [parseMap_of_crlf_none data hf] at h
    simp at h
  · intro data p hf e hv c r h
    rw [parseMap_of_crlf_some data p hf] at h
    simp only [hv] at h
    simp at h
  · intro data p hf v hv hneg c r h
    rw [parseMap_of_crlf_some data p hf] at h
    simp only [hv, if_pos hneg] at h
    simp at h
  · intro data p hf v hv hneg e hpairs ih c r h
    rw [parseMap_of_crlf_some data p hf] at h
    simp only [hv, if_neg hneg, hpairs] at h
    simp at h
  · intro data p hf v hv hneg c0 pairs hpairs ih c r h m hm
    rw [parseMap_of_crlf_some data p hf] at h
    simp only [hv, if_neg hneg, hpairs, Except.ok.injEq, Prod.mk.injEq] at h
    have hb := findCRLF_some_lt data 1 p hf
    have hc0 := parse_bounds_mutual.2.2.2.2.1 _ _ _ _ hpairs
    simp only [List.length_drop] at hc0
    rw [parseMap_of_crlf_some (data.take m) p (findCRLF_take data 1 p m hf (by omega)),
        List.drop_take, List.take_take,
        show (p - 1) ⊓ (m - 1) = p - 1 from by omega,
        List.drop_take]
    have hpairs2 := ih c0 pairs hpairs (m - (p + 2)) (by omega)
    simp only [hv, if_neg hneg, hpairs2]
    exact (by simp only [Except.ok.injEq, Prod.mk.injEq]; exact h)
  -- motive5 (parsePairs) cases
  · intro rest c ps h m hm
    rw [parsePairs_zero] at h
    rw [parsePairs_zero]
    exact h
  · intro rest k hemp c ps h
    rw [parsePairs_succ, if_pos hemp] at h
    simp at h
  · intro rest k hemp e hp ih c ps h
    rw [parsePairs_succ, if_neg hemp] at h
    simp only [hp] at h
    simp at h
  · intro rest k hemp ck key hp hemp2 ih c ps h
    rw [parsePairs_succ, if_neg hemp] at h
    simp only [hp, if_pos hemp2] at h
    simp at h
  · intro rest k hemp ck key hp hemp2 e hp2 ih1 ih2 c ps h
    rw [parsePairs_succ, if_neg hemp] at h
    simp only [hp, if_neg hemp2, hp2] at h
    simp at h
  · intro rest k hemp ck key hp hemp2 cv val hp2 e hpairs ih1 ih2 ih3 c ps h
    rw [parsePairs_succ, if_neg hemp] at h
    simp only [hp, if_neg hemp2, hp2, hpairs] at h
    simp at h
  · intro rest k hemp ck key hp hemp2 cv val hp2 c2 pairs hpairs ih1 ih2 ih3 c ps h m hm
    rw [parsePairs_succ, if_neg hemp] at h
    simp only [hp, if_neg hemp2, hp2, hpairs, Except.ok.injEq, Prod.mk.injEq] at h
    have hbk := parse_bounds_mutual.1 rest ck key hp
    have hbv := parse_bounds_mutual.1 (rest.drop ck) cv val hp2
    simp only [List.length_drop] at hbv
    rw [parsePairs_succ, if_neg (take_not_isEmpty rest m (by omega) hemp)]
    have hpk := ih1 ck key hp m (by omega)
    have hpv := ih2 cv val hp2 (m - ck) (by omega)
    rw [← List.drop_take] at hpv
    have hpp := ih3 c2 pairs hpairs (m - ck - cv) (by omega)
    rw [← List.drop_take, ← List.drop_take] at hpp
    have hne2 : ¬ ((rest.take m).drop ck).isEmpty = true := by
      rw [List.drop_take]
      exact take_not_isEmpty (rest.drop ck) (m - ck) (by omega) hemp2
    simp only [hpk, if_neg hne2, hpv, hpp]
    exact (by simp only [Except.ok.injEq, Prod.mk.injEq]; exact h)
  -- motive6 (parseArray) cases
  · intro data hf c r h
    rw [parseArray_of_crlf_none data hf] at h
    simp at h
  · intro data p hf e hv c r h
    rw [parseArray_of_crlf_some data p hf] at h
    simp only [hv] at h
    simp at h
  · intro data p hf hv c r h m hm
    rw [parseArray_of_crlf_some data p hf] at h
    simp only [hv, reduceIte, Except.ok.injEq, Prod.mk.injEq] at h
    have hb := findCRLF_some_lt data 1 p hf
    rw [parseArray_of_crlf_some (data.take m) p (findCRLF_take data 1 p m hf (by omega)),
        List.drop_take, List.take_take,
        show (p - 1) ⊓ (m - 1) = p - 1 from by omega]
    simp only [hv, reduceIte]
    exact (by simp only [Except.ok.injEq, Prod.mk.injEq]; exact h)
  · intro data p hf v hv hne hneg c r h
    rw [parseArray_of_crlf_some data p hf] at h
    simp only [hv, if_neg hne, if_pos hneg] at h
    simp at h
  · intro data p hf v hv hne hneg e helems ih c r h
    rw [parseArray_of_crlf_some data p hf] at h
    simp only [hv, if_neg hne, if_neg hneg, helems] at h
    simp at h
  · intro data p hf v hv hne hneg c0 elems helems ih c r h m hm
    rw [parseArray_of_crlf_some data p hf] at h
    simp only [hv, if_neg hne, if_neg hneg, helems, Except.ok.injEq, Prod.mk.injEq] at h
    have hb := findCRLF_some_lt data 1 p hf
    have hc0 := parse_bounds_mutual.2.2.1 _ _ _ _ helems
    simp only [List.length_drop] at hc0
    rw [parseArray_of_crlf_some (data.take m) p (findCRLF_take data 1 p m hf (by omega)),
        List.drop_take, List.take_take,
        show (p - 1) ⊓ (m - 1) = p - 1 from by omega,
        List.drop_take]
    have helems2 := ih c0 elems helems (m - (p + 2)) (by omega)
    simp only [hv, if_neg hne, if_neg hneg, helems2]
    exact (by simp only [Except.ok.injEq, Prod.mk.injEq]; exact h)


/-- Slice stability: a successful parse only depends on the bytes it consumed. -/
theorem parse_take_ok (data : List Char) (c : Nat) (r : RedisReply) (m : Nat)
    (h : parse data = Except.ok (c, r)) (hm : c ≤ m) :
    parse (data.take m) = Except.ok (c, r) :=
  parse_take_mutual.1 data c r h m hm



theorem parse_take_lt_mutual :
    (∀ data c r, parse data = Except.ok (c, r) → ∀ m, m < c → parse (data.take m) = Except.error .Incomplete) ∧
    (∀ data c r, parseSet data = Except.ok (c, r) → ∀ m, m < c → parseSet (data.take m) = Except.error .Incomplete) ∧
    (∀ rest count c es, parseElems rest count = Except.ok (c, es) →
        ∀ m, m < c → parseElems (rest.take m) count = Except.error .Incomplete) ∧
    (∀ data c r, parseMap data = Except.ok (c, r) → ∀ m, m < c → parseMap (data.take m) = Except.error .Incomplete) ∧
    (∀ rest count c ps, parsePairs rest count = Except.ok (c, ps) →
        ∀ m, m < c → parsePairs (rest.take m) count = Except.error .Incomplete) ∧
    (∀ data c r, parseArray data = Except.ok (c, r) → ∀ m, m < c → parseArray (data.take m) = Except.error .Incomplete) := by
  refine parse.mutual_induct _ _ _ _ _ _ ?_ ?_ ?_ ?_ ?_ ?_ ?_ ?_ ?_ ?_ ?_ ?_ ?_ ?_ ?_ ?_ ?_ ?_ ?_ ?_ ?_ ?_ ?_ ?_ ?_ ?_ ?_ ?_ ?_ ?_ ?_ ?_ ?_ ?_ ?_ ?_ ?_ ?_ ?_
  -- motive1 cases
  · intro c r h
    rw [parse_nil] at h
    simp at h
  · intro rest c r h m hm
    rw [parse_cons_plus] at h
    match m with
    | 0 => rw [List.take_zero, parse_nil]
    | q + 1 =>
        have h2 := parseSimpleString_take_lt _ _ _ (q + 1) h hm
        rw [List.take_succ_cons] at h2
        rw [List.take_succ_cons, parse_cons_plus]
        exact h2
  · intro rest _ c r h m hm
    rw [parse_cons_minus] at h
    match m with
    | 0 => rw [List.take_zero, parse_nil]
    | q + 1 =>
        have h2 := parseErrorReply_take_lt _ _ _ (q + 1) h hm
        rw [List.take_succ_cons] at h2
        rw [List.take_succ_cons, parse_cons_minus]
        exact h2
  · intro rest _ _ c r h m hm
    rw [parse_cons_colon] at h
    match m with
    | 0 => rw [List.take_zero, parse_nil]
    | q + 1 =>
        have h2 := parseInteger_take_lt _ _ _ (q + 1) h hm
        rw [List.take_succ_cons] at h2
        rw [List.take_succ_cons, parse_cons_colon]
        exact h2
  · intro rest _ _ _ c r h m hm
    rw [parse_cons_dollar] at h
    match m with
    | 0 => rw [List.take_zero, parse_nil]
    | q + 1 =>
        have h2 := parseBulkString_take_lt _ _ _ (q + 1) h hm
        rw [List.take_succ_cons] at h2
        rw [List.take_succ_cons, parse_cons_dollar]
        exact h2
  · intro rest _ _ _ _ ih c r h m hm
    rw [parse_cons_star] at h
    match m with
    | 0 => rw [List.take_zero, parse_nil]
    | q + 1 =>
        have h2 := ih c r h (q + 1) hm
        rw [List.take_succ_cons] at h2
        rw [List.take_succ_cons, parse_cons_star]
        exact h2
  · intro rest _ _ _ _ _ c r h m hm
    rw [parse_cons_comma] at h
    match m with
    | 0 => rw [List.take_zero, parse_nil]
    | q + 1 =>
        have h2 := parseDouble_take_lt _ _ _ (q + 1) h hm
        rw [List.take_succ_cons] at h2
        rw [List.take_succ_cons, parse_cons_comma]
        exact h2
  · intro rest _ _ _ _ _ _ c r h m hm
    rw [parse_cons_hash] at h
    match m with
    | 0 => rw [List.take_zero, parse_nil]
    | q + 1 =>
        have h2 := parseBoolean_take_lt _ _ _ (q + 1) h hm
        rw [List.take_succ_cons] at h2
        rw [List.take_succ_cons, parse_cons_hash]
        exact h2
  · intro rest _ _ _ _ _ _ _ ih c r h m hm
    rw [parse_cons_percent] at h
    match m with
    | 0 => rw [List.take_zero, parse_nil]
    | q + 1 =>
        have h2 := ih c r h (q + 1) hm
        rw [List.take_succ_cons] at h2
        rw [List.take_succ_cons, parse_cons_percent]
        exact h2
  · intro rest _ _ _ _ _ _ _ _ ih c r h m hm
    rw [parse_cons_tilde] at h
    match m with
    | 0 => rw [List.take_zero, parse_nil]
    | q + 1 =>
        have h2 := ih c r h (q + 1) hm
        rw [List.take_succ_cons] at h2
        rw [List.take_succ_cons, parse_cons_tilde]
        exact h2
  · intro c rest h1 h2 h3 h4 h5 h6 h7 h8 h9 cc rr h
    rw [parse_cons_other c rest h1 h2 h3 h4 h5 h6 h7 h8 h9] at h
    simp at h
  -- motive2 (parseSet) cases
  · intro data hf c r h
    rw [parseSet_of_crlf_none data hf] at h
    simp at h
  · intro data p hf e hv c r h
    rw [parseSet_of_crlf_some data p hf] at h
    simp only [hv] at h
    simp at h
  · intro data p hf v hv hneg c r h
    rw [parseSet_of_crlf_some data p hf] at h
    simp only [hv, if_pos hneg] at h
    simp at h
  · intro data p hf v hv hneg e helems ih c r h
    rw [parseSet_of_crlf_some data p hf] at h
    simp only [hv, if_neg hneg, helems] at h
    simp at h
  · intro data p hf v hv hneg c0 elems helems ih c r h m hm
    rw [parseSet_of_crlf_some data p hf] at h
    simp only [hv, if_neg hneg, helems, Except.ok.injEq, Prod.mk.injEq] at h
    have hb := findCRLF_some_lt data 1 p hf
    by_cases hmp : m ≤ p + 1
    · rw [parseSet_of_crlf_none (data.take m) (findCRLF_take_none data 1 p m hf hmp)]
    · rw [parseSet_of_crlf_some (data.take m) p (findCRLF_take data 1 p m hf (by omega)),
          List.drop_take, List.take_take,
          show (p - 1) ⊓ (m - 1) = p - 1 from by omega,
          List.drop_take]
      have helems2 := ih c0 elems helems (m - (p + 2)) (by omega)
      simp only [hv, if_neg hneg, helems2]
  -- motive3 (parseElems) cases
  · intro rest c es h m hm
    rw [parseElems_zero] at h
    simp only [Except.ok.injEq, Prod.mk.injEq] at h
    omega
  · intro rest k hemp c es h
    rw [parseElems_succ, if_pos hemp] at h
    simp at h
  · intro rest k hemp e hp ih c es h
    rw [parseElems_succ, if_neg hemp] at h
    simp only [hp] at h
    simp at h
  · intro rest k hemp consumed elem hp e helems ih1 ih2 c es h
    rw [parseElems_succ, if_neg hemp] at h
    simp only [hp, helems] at h
    simp at h
  · intro rest k hemp consumed elem hp c2 elems helems ih1 ih2 c es h m hm
    rw [parseElems_succ, if_neg hemp] at h
    simp only [hp, helems, Except.ok.injEq, Prod.mk.injEq] at h
    have hbnd := parse_bounds_mutual.1 rest consumed elem hp
    match m with
    | 0 =>
        rw [List.take_zero, parseElems_succ, if_pos (by simp)]
    | q + 1 =>
        rw [parseElems_succ, if_neg (take_not_isEmpty rest (q + 1) (by omega) hemp)]
        by_cases hmc : q + 1 < consumed
        · have hinc := ih1 consumed elem hp (q + 1) hmc
          simp only [hinc]
        · have hok := parse_take_mutual.1 rest consumed elem hp (q + 1) (by omega)
          have helems2 := ih2 c2 elems helems (q + 1 - consumed) (by omega)
          rw [← List.drop_take] at helems2
          simp only [hok, helems2]
  -- motive4 (parseMap) cases
  · intro data hf c r h
    rw [parseMap_of_crlf_none data hf] at h
    simp at h
  · intro data p hf e hv c r h
    rw [parseMap_of_crlf_some data p hf] at h
    simp only [hv] at h
    simp at h
  · intro data p hf v hv hneg c r h
    rw [parseMap_of_crlf_some data p hf] at h
    simp only [hv, if_pos hneg] at h
    simp at h
  · intro data p hf v hv hneg e hpairs ih c r h
    rw [parseMap_of_crlf_some data p hf] at h
    simp only [hv, if_neg hneg, hpairs] at h
    simp at h
  · intro data p hf v hv hneg c0 pairs hpairs ih c r h m hm
    rw [parseMap_of_crlf_some data p hf] at h
    simp only [hv, if_neg hneg, hpairs, Except.ok.injEq, Prod.mk.injEq] at h
    have hb := findCRLF_some_lt data 1 p hf
    by_cases hmp : m ≤ p + 1
    · rw [parseMap_of_crlf_none (data.take m) (findCRLF_take_none data 1 p m hf hmp)]
    · rw [parseMap_of_crlf_some (data.take m) p (findCRLF_take data 1 p m hf (by omega)),
          List.drop_take, List.take_take,
          show (p - 1) ⊓ (m - 1) = p - 1 from by omega,
          List.drop_take]
      have hpairs2 := ih c0 pairs hpairs (m - (p + 2)) (by omega)
      simp only [hv, if_neg hneg, hpairs2]
  -- motive5 (parsePairs) cases
  · intro rest c ps h m hm
    rw [parsePairs_zero] at h
    simp only [Except.ok.injEq, Prod.mk.injEq] at h
    omega
  · intro rest k hemp c ps h
    rw [parsePairs_succ, if_pos hemp] at h
    simp at h
  · intro rest k hemp e hp ih c ps h
    rw [parsePairs_succ, if_neg hemp] at h
    simp only [hp] at h
    simp at h
  · intro rest k hemp ck key hp hemp2 ih c ps h
    rw [parsePairs_succ, if_neg hemp] at h
    simp only [hp, if_pos hemp2] at h
    simp at h
  · intro rest k hemp ck key hp hemp2 e hp2 ih1 ih2 c ps h
    rw [parsePairs_succ, if_neg hemp] at h
    simp only [hp, if_neg hemp2, hp2] at h
    simp at h
  · intro rest k hemp ck key hp hemp2 cv val hp2 e hpairs ih1 ih2 ih3 c ps h
    rw [parsePairs_succ, if_neg hemp] at h
    simp only [hp, if_neg hemp2, hp2, hpairs] at h
    simp at h
  · intro rest k hemp ck key hp hemp2 cv val hp2 c2 pairs hpairs ih1 ih2 ih3 c ps h m hm
    rw [parsePairs_succ, if_neg hemp] at h
    simp only [hp, if_neg hemp2, hp2, hpairs, Except.ok.injEq, Prod.mk.injEq] at h
    have hbk := parse_bounds_mutual.1 rest ck key hp
    have hbv := parse_bounds_mutual.1 (rest.drop ck) cv val hp2
    simp only [List.length_drop] at hbv
    match m with
    | 0 =>
        rw [List.take_zero, parsePairs_succ, if_pos (by simp)]
    | q + 1 =>
        rw [parsePairs_succ, if_neg (take_not_isEmpty rest (q + 1) (by omega) hemp)]
        by_cases hmk : q + 1 < ck
        · have hinc := ih1 ck key hp (q + 1) hmk
          simp only [hinc]
        · have hok := parse_take_mutual.1 rest ck key hp (q + 1) (by omega)
          simp only [hok]
          by_cases hqk : q + 1 = ck
          · have : ((rest.take (q + 1)).drop ck).isEmpty = true := by
              rw [List.drop_take]
              simp [hqk]
            rw [if_pos this]
          · have hne2 : ¬ ((rest.take (q + 1)).drop ck).isEmpty = true := by
              rw [List.drop_take]
              exact take_not_isEmpty (rest.drop ck) (q + 1 - ck) (by omega) hemp2
            rw [if_neg hne2]
            by_cases hmv : q + 1 - ck < cv
            · have hinc := ih2 cv val hp2 (q + 1 - ck) hmv
              rw [← List.drop_take] at hinc
              simp only [hinc]
            · have hokv := parse_take_mutual.1 (rest.drop ck) cv val hp2 (q + 1 - ck) (by omega)
              rw [← List.drop_take] at hokv
              simp only [hokv]
              have hpp := ih3 c2 pairs hpairs (q + 1 - ck - cv) (by omega)
              rw [← List.drop_take, ← List.drop_take] at hpp
              simp only [hpp]
  -- motive6 (parseArray) cases
  · intro data hf c r h
    rw [parseArray_of_crlf_none data hf] at h
    simp at h
  · intro data p hf e hv c r h
    rw [parseArray_of_crlf_some data p hf] at h
    simp only [hv] at h
    simp at h
  · intro data p hf hv c r h m hm
    rw [parseArray_of_crlf_some data p hf] at h
    simp only [hv, reduceIte, Except.ok.injEq, Prod.mk.injEq] at h
    have hb := findCRLF_some_lt data 1 p hf
    rw [parseArray_of_crlf_none (data.take m) (findCRLF_take_none data 1 p m hf (by omega))]
  · intro data p hf v hv hne hneg c r h
    rw [parseArray_of_crlf_some data p hf] at h
    simp only [hv, if_neg hne, if_pos hneg] at h
    simp at h
  · intro data p hf v hv hne hneg e helems ih c r h
    rw [parseArray_of_crlf_some data p hf] at h
    simp only [hv, if_neg hne, if_neg hneg, helems] at h
    simp at h
  · intro data p hf v hv hne hneg c0 elems helems ih c r h m hm
    rw [parseArray_of_crlf_some data p hf] at h
    simp only [hv, if_neg hne, if_neg hneg, helems, Except.ok.injEq, Prod.mk.injEq] at h
    have hb := findCRLF_some_lt data 1 p hf
    by_cases hmp : m ≤ p + 1
    · rw [parseArray_of_crlf_none (data.take m) (findCRLF_take_none data 1 p m hf hmp)]
    · rw [parseArray_of_crlf_some (data.take m) p (findCRLF_take data 1 p m hf (by omega)),
          List.drop_take, List.take_take,
          show (p - 1) ⊓ (m - 1) = p - 1 from by omega,
          List.drop_take]
      have helems2 := ih c0 elems helems (m - (p + 2)) (by omega)
      simp only [hv, if_neg hne, if_neg hneg, helems2]


/-- Proper prefixes of a successful parse are Incomplete. -/
theorem parse_take_incomplete (data : List Char) (c : Nat) (r : RedisReply) (m : Nat)
    (h : parse data = Except.ok (c, r)) (hm : m < c) :
    parse (data.take m) = Except.error ParseError.Incomplete :=
  parse_take_lt_mutual.1 data c r h m hm



/-- RespEncoder::encodeBulkString: dollar, decimal length, CRLF, bytes, CRLF. -/
def encodeBulkString (s : List Char) : List Char :=
  '$' :: (Nat.toDigits 10 s.length ++ ('\r' :: '\n' :: (s ++ ['\r', '\n'])))

/-- RespEncoder::encodeArray: star, decimal count, CRLF, then each element as
a bulk string. -/
def encodeArray (elements : List (List Char)) : List Char :=
  '*' :: (Nat.toDigits 10 elements.length ++ ('\r' :: '\n' :: (elements.map encodeBulkString).flatten))

/-- RespEncoder::encodeCommand(cmd_parts): empty input encodes as an empty
array header, otherwise encodeArray. -/
def encodeCommand (cmd_parts : List (List Char)) : List Char :=
  if cmd_parts.isEmpty then ['*', '0', '\r', '\n'] else encodeArray cmd_parts

/-- Redis error kinds, from `base/RedisError.h` (enum RedisErrorType),
restricted to the kinds produced by the modelled code paths. -/
inductive RedisErrorType where
  | SUCCESS
  | URL_INVALID
  | HOST_INVALID
  | PORT_INVALID
  | DB_INDEX_INVALID
  | ADDRESS_TYPE_INVALID
  | CONNECTION_ERROR
  | COMMAND_ERROR
  | TIMEOUT_ERROR
  | AUTH_ERROR
  | PARSE_ERROR
  | SEND_ERROR
  | RECV_ERROR
  | BUFFER_OVERFLOW
  | NETWORK_ERROR
  | CONNECTION_CLOSED
  | INTERNAL_ERROR
  deriving DecidableEq, Repr

/-- Batch payload built by the RedisPipelineAwaitable constructor
(`RedisClient.cc`): the concatenation of every sub-command encoding. -/
def pipelineEncodedBatch (commands : List (List (List Char))) : List Char :=
  (commands.map encodeCommand).flatten

/-- Parse loop of RedisPipelineAwaitable::await_resume over the arrival
stream: parse one frame per collected reply until `need` replies are
collected.  `none` models `return std::nullopt` (more bytes must be
received); a non-Incomplete parse error resets and reports PARSE_ERROR.
An empty readable region also suspends, exactly as `read_iovecs.empty()`. -/
def pipelineCollect : List Char → Nat → Option (Except RedisErrorType (List RedisReply))
  | _, 0 => some (.ok [])
  | buffer, k + 1 =>
      if buffer.isEmpty then none
      else
        match parse buffer with
        | .ok (consumed, v) =>
            match pipelineCollect (buffer.drop consumed) k with
            | some (.ok vs) => some (.ok (v :: vs))
            | other => other
        | .error .Incomplete => none
        | .error _ => some (.error .PARSE_ERROR)

/-- Connection::receiveReply from `protocol/Connection.cc`, driven by the
script of `recv` results (`chunks`; an empty chunk models a peer close).
At the top of each iteration the buffered bytes are parsed (the source
skips the call when the buffer is empty, and `parse [] = Incomplete`, so
the two formulations agree); then one chunk is received and appended, and
the 1 MiB cap is enforced immediately after the append, before any further
parse attempt.  `none` means the script ran out while the loop would keep
receiving. -/
def receiveReplyLoop : List Char → List (List Char) → Option (Except RedisErrorType RedisReply)
  | buffer, chunks =>
      match parse buffer with
      | .ok pr => some (.ok pr.2)
      | .error .Incomplete =>
          match chunks with
          | [] => none
          | chunk :: rest =>
              if chunk.isEmpty then some (.error .CONNECTION_CLOSED)
              else if (buffer ++ chunk).length > 1024 * 1024 then some (.error .BUFFER_OVERFLOW)
              else receiveReplyLoop (buffer ++ chunk) rest
      | .error _ => some (.error .PARSE_ERROR)

/-- Entry point of Connection::receiveReply: the local buffer starts empty. -/
def receiveReply (chunks : List (List Char)) : Option (Except RedisErrorType RedisReply) :=
  receiveReplyLoop [] chunks

/-- Awaitable state enum shared by the client awaitables (`RedisClient.h`). -/
inductive AwaitState where
  | Invalid
  | Sending
  | Receiving
  deriving DecidableEq, Repr

/-- RedisClientAwaitable, as constructed by its constructor: the command and
arguments are joined into cmd_parts and encoded immediately; the state
starts Invalid. -/
structure RedisClientAwaitableM where
  cmd : List Char
  args : List (List Char)
  encoded_cmd : List Char
  state : AwaitState
  deriving Repr

/-- The RedisClientAwaitable constructor (`RedisClient.cc` lines 11-31). -/
def mkRedisClientAwaitable (cmd : List Char) (args : List (List Char)) : RedisClientAwaitableM :=
  { cmd := cmd, args := args, encoded_cmd := encodeCommand (cmd :: args), state := AwaitState.Invalid }

/-- Observable state of RedisClient (`RedisClient.h`): the closed flag, the
socket, and the cached command awaitable. -/
structure RedisClientM where
  m_is_closed : Bool
  socket_open : Bool
  m_cmd_awaitable : Option RedisClientAwaitableM

/-- RedisClient::close: `return m_socket.close()` — the socket is closed but
`m_is_closed` is NOT touched. -/
def RedisClientM.close (cl : RedisClientM) : RedisClientM :=
  { cl with socket_open := false }

/-- RedisClient::isClosed: returns the flag. -/
def RedisClientM.isClosed (cl : RedisClientM) : Bool := cl.m_is_closed

/-- State of the moved-from client after the move constructor
(`RedisClient.cc`): `other.m_is_closed = true` — the only writer of the
flag. -/
def RedisClientM.movedFrom (cl : RedisClientM) : RedisClientM :=
  { cl with m_is_closed := true }

/-- RedisClient::execute (`RedisClient.cc` lines 728-735): a new awaitable is
created only when none is cached or the cached one is Invalid; otherwise the
cached awaitable is returned unchanged and the new command is never encoded.
There is no check of `m_is_closed`. -/
def RedisClientM.execute (cl : RedisClientM) (cmd : List Char) (args : List (List Char)) :
    RedisClientAwaitableM × RedisClientM :=
  match cl.m_cmd_awaitable with
  | none =>
      let fresh := mkRedisClientAwaitable cmd args
      (fresh, { cl with m_cmd_awaitable := some fresh })
  | some aw =>
      if aw.state = AwaitState.Invalid then
        let fresh := mkRedisClientAwaitable cmd args
        (fresh, { cl with m_cmd_awaitable := some fresh })
      else (aw, cl)

/-- Observable state of AsyncRedisSession (`AsyncRedisSession.h`). -/
structure AsyncRedisSessionM where
  m_is_closed : Bool

/-- AsyncRedisSession::close: if already closed it returns success at once;
otherwise the socket is closed and `m_is_closed` is set (the coroutine sets
the flag once `socket.close()` completes; this sequential model takes the
post-completion state). -/
def AsyncRedisSessionM.close (s : AsyncRedisSessionM) : AsyncRedisSessionM :=
  { s with m_is_closed := true }

/-- AsyncRedisSession::isClosed. -/
def AsyncRedisSessionM.isClosed (s : AsyncRedisSessionM) : Bool := s.m_is_closed

/-- Immediate outcome of AsyncRedisSession::execute (`AsyncRedisSession.h`
lines 93-111): a closed session fails with ConnectionClosed before anything
is encoded; `none` means the command is encoded and enqueued. -/
def AsyncRedisSessionM.executeCheck (s : AsyncRedisSessionM) : Option RedisErrorType :=
  if s.m_is_closed then some RedisErrorType.CONNECTION_CLOSED else none

/-- Immediate outcome of AsyncRedisSession::pipeline (`AsyncRedisSession.cc`
lines 763-791): closed → ConnectionClosed; empty list → immediate empty
vector; an empty sub-command → COMMAND_ERROR; otherwise (`none`) the batch
is encoded and enqueued. -/
def AsyncRedisSessionM.pipelineCheck (s : AsyncRedisSessionM)
    (commands : List (List (List Char))) : Option (Except RedisErrorType (List RedisReply)) :=
  if s.m_is_closed then some (.error .CONNECTION_CLOSED)
  else if commands.isEmpty then some (.ok [])
  else if commands.any (fun c => c.isEmpty) then some (.error .COMMAND_ERROR)
  else none




/-- The literal scheme prefix `redis://` required by the connect-URL regex. -/
def redisSchemePrefix : List Char := ['r', 'e', 'd', 'i', 's', ':', '/', '/']

/-- Anchored scheme match: the URL must begin with `redis://`. -/
def stripScheme (url : List Char) : Option (List Char) :=
  if url.take 8 = redisSchemePrefix then some (url.drop 8) else none

/-- Character class `[a-zA-Z0-9\-\.]` of the host group. -/
def isHostChar (c : Char) : Bool := c.isUpper || c.isLower || c.isDigit || c == '-' || c == '.'

/-- Splits a list at the first occurrence of `sep`; `none` when absent. -/
def splitAtFirst (sep : Char) : List Char → Option (List Char × List Char)
  | [] => none
  | c :: rest =>
      if c = sep then some ([], rest)
      else
        match splitAtFirst sep rest with
        | none => none
        | some (a, b) => some (c :: a, b)

/-- The five capture groups of the connect-URL regex
`redis://(userinfo@)?host(:port)?(/db)?`. -/
structure UrlParts where
  username : List Char
  password : List Char
  host : List Char
  portDigits : Option (List Char)
  dbDigits : Option (List Char)
  deriving Repr, DecidableEq

/-- Host, optional `:port` and optional `/db` tail of the URL: the host is
the maximal run of host characters (it can contain neither `:` nor `/`, so
maximal munch is exact), the port and db are maximal nonempty digit runs,
and the string must be fully consumed. -/
def parseHostPort (s : List Char) : Option (List Char × Option (List Char) × Option (List Char)) :=
  let host := s.takeWhile isHostChar
  let rest := s.dropWhile isHostChar
  if host.isEmpty then none
  else
    match rest with
    | [] => some (host, none, none)
    | ':' :: r1 =>
        let port := r1.takeWhile Char.isDigit
        let r2 := r1.dropWhile Char.isDigit
        if port.isEmpty then none
        else
          match r2 with
          | [] => some (host, some port, none)
          | '/' :: r3 =>
              let db := r3.takeWhile Char.isDigit
              let r4 := r3.dropWhile Char.isDigit
              if db.isEmpty then none
              else if r4.isEmpty then some (host, some port, some db) else none
          | _ => none
    | '/' :: r3 =>
        let db := r3.takeWhile Char.isDigit
        let r4 := r3.dropWhile Char.isDigit
        if db.isEmpty then none
        else if r4.isEmpty then some (host, none, some db) else none
    | _ => none

/-- Deterministic embedding of `std::regex_match` against
`^redis://(?:([^:@]*)(?::([^@]*))?@)?([a-zA-Z0-9\-\.]+)(?::(\d+))?(?:/(\d+))?$`,
shared by RedisClient::connect(url), AsyncRedisSession::connect(url) and
RedisSession::connect(url).  Since the password class excludes `@`, the
userinfo group, when present, ends at the first `@`; the username group
excludes `:` and `@`, so it ends at the first `:` of the userinfo. -/
def matchRedisUrl (url : List Char) : Option UrlParts :=
  match stripScheme url with
  | none => none
  | some rest =>
      match splitAtFirst '@' rest with
      | none =>
          match parseHostPort rest with
          | none => none
          | some (h, p, d) => some ⟨[], [], h, p, d⟩
      | some (userinfo, hostpart) =>
          let updn : List Char × List Char :=
            match splitAtFirst ':' userinfo with
            | none => (userinfo, [])
            | some (u, pw) => (u, pw)
          match parseHostPort hostpart with
          | none => none
          | some (h, p, d) => some ⟨updn.1, updn.2, h, p, d⟩

/-- Value of a digit string, as accumulated by std::stoi. -/
def digitsToNat (ds : List Char) : Nat :=
  ds.foldl (fun acc c => acc * 10 + (c.toNat - '0'.toNat)) 0

/-- std::stoi on a digit-only string throws (out_of_range) exactly when the
value exceeds INT_MAX. -/
def stoiOverflows (ds : List Char) : Bool := 2147483647 < digitsToNat ds

/-- Parameters handed to the connect awaitable. -/
structure ConnectParams where
  username : List Char
  password : List Char
  host : List Char
  port : Int
  db_index : Int
  deriving Repr, DecidableEq

/-- RedisClient::connect(url) (`RedisClient.cc` lines 867-914): when the
regex does not match, NO error is raised — the defaults
(empty user/password/host, port 6379, db 0) are used; when stoi throws on
the port or db digits, a warning is logged and the default is used. -/
def redisClientConnectParams (url : List Char) : ConnectParams :=
  match matchRedisUrl url with
  | none => ⟨[], [], [], 6379, 0⟩
  | some parts =>
      let port : Int :=
        match parts.portDigits with
        | none => 6379
        | some ds => if stoiOverflows ds then 6379 else (digitsToNat ds : Int)
      let db : Int :=
        match parts.dbDigits with
        | none => 0
        | some ds => if stoiOverflows ds then 0 else (digitsToNat ds : Int)
      ⟨parts.username, parts.password, parts.host, port, db⟩

/-- AsyncRedisSession::connect(url) (`AsyncRedisSession.cc` lines 68-145)
up to parameter extraction (address-type checks and the actual TCP connect
are outside this model): regex mismatch → URL_INVALID; empty host group →
HOST_INVALID (unreachable, the host group is `+`); stoi failure on the
port digits → PORT_INVALID; on the db digits → DB_INDEX_INVALID.
RedisSession::connect(url) in `sync/RedisSession.cc` follows the same
structure. -/
def asyncSessionConnectUrl (url : List Char) : Except RedisErrorType ConnectParams :=
  match matchRedisUrl url with
  | none => .error .URL_INVALID
  | some parts =>
      if parts.host.isEmpty then .error .HOST_INVALID
      else
        match parts.portDigits with
        | some ds =>
            if stoiOverflows ds then .error .PORT_INVALID
            else
              match parts.dbDigits with
              | some ds2 =>
                  if stoiOverflows ds2 then .error .DB_INDEX_INVALID
                  else .ok ⟨parts.username, parts.password, parts.host, (digitsToNat ds : Int), (digitsToNat ds2 : Int)⟩
              | none => .ok ⟨parts.username, parts.password, parts.host, (digitsToNat ds : Int), 0⟩
        | none =>
            match parts.dbDigits with
            | some ds2 =>
                if stoiOverflows ds2 then .error .DB_INDEX_INVALID
                else .ok ⟨parts.username, parts.password, parts.host, 6379, (digitsToNat ds2 : Int)⟩
            | none => .ok ⟨parts.username, parts.password, parts.host, 6379, 0⟩

/-- Renders an optional URL component with its leading delimiter. -/
def optTail (pre : Char) : Option (List Char) → List Char
  | none => []
  | some ds => pre :: ds

/-- Specification-side grammar of the accepted URL form
`redis://[user[:pass]@]host[:port][/db]`, written from the claim text for
the refinement comparison with `matchRedisUrl`. -/
def UrlWellFormed (url : List Char) : Prop :=
  ∃ (userinfo host : List Char) (port db : Option (List Char)),
    url = redisSchemePrefix ++ userinfo ++ host ++ optTail ':' port ++ optTail '/' db ∧
    (userinfo = [] ∨
      (∃ u : List Char, userinfo = u ++ ['@'] ∧ ∀ c ∈ u, ¬ c = ':' ∧ ¬ c = '@') ∨
      (∃ u pw : List Char, userinfo = u ++ ':' :: (pw ++ ['@']) ∧
        (∀ c ∈ u, ¬ c = ':' ∧ ¬ c = '@') ∧ ∀ c ∈ pw, ¬ c = '@')) ∧
    ¬ host = [] ∧ (∀ c ∈ host, isHostChar c = true) ∧
    (∀ ds, port = some ds → ¬ ds = [] ∧ ∀ c ∈ ds, c.isDigit = true) ∧
    (∀ ds, db = some ds → ¬ ds = [] ∧ ∀ c ∈ ds, c.isDigit = true)




theorem stripScheme_some (url rest : List Char) (h : stripScheme url = some rest) :
    url = redisSchemePrefix ++ rest := by
  unfold stripScheme at h
  split at h
  · rename_i htake
    injection h with h2
    subst h2
    rw [← htake]
    exact (List.take_append_drop 8 url).symm
  · cases h

theorem splitAtFirst_some (sep : Char) (l a b : List Char)
    (h : splitAtFirst sep l = some (a, b)) :
    l = a ++ sep :: b ∧ ∀ c ∈ a, ¬ c = sep := by
  induction l generalizing a with
  | nil => simp [splitAtFirst] at h
  | cons x rest ih =>
      rw [splitAtFirst] at h
      by_cases hx : x = sep
      · simp only [if_pos hx, Option.some.injEq, Prod.mk.injEq] at h
        obtain ⟨ha, hb⟩ := h
        subst ha
        subst hb
        subst hx
        exact ⟨rfl, by simp⟩
      · simp only [if_neg hx] at h
        cases hs : splitAtFirst sep rest with
        | none => rw [hs] at h; cases h
        | some ab =>
            rw [hs] at h
            obtain ⟨a2, b2⟩ := ab
            simp only [Option.some.injEq, Prod.mk.injEq] at h
            obtain ⟨ha, hb⟩ := h
            subst hb
            have := ih a2 hs
            obtain ⟨hl, hmem⟩ := this
            subst ha
            constructor
            · rw [hl]; rfl
            · intro c hc
              simp only [List.mem_cons] at hc
              rcases hc with hc | hc
              · subst hc; exact hx
              · exact hmem c hc

theorem parseHostPort_some (s h : List Char) (p d : Option (List Char))
    (hp : parseHostPort s = some (h, p, d)) :
    s = h ++ optTail ':' p ++ optTail '/' d ∧
    ¬ h = [] ∧ (∀ c ∈ h, isHostChar c = true) ∧
    (∀ ds, p = some ds → ¬ ds = [] ∧ ∀ c ∈ ds, c.isDigit = true) ∧
    (∀ ds, d = some ds → ¬ ds = [] ∧ ∀ c ∈ ds, c.isDigit = true) := by
  unfold parseHostPort at hp
  simp only [] at hp
  split at hp
  · cases hp
  · rename_i hne
    have hsplit := List.takeWhile_append_dropWhile isHostChar s
    have hhost : ∀ c ∈ s.takeWhile isHostChar, isHostChar c = true :=
      fun c hc => List.mem_takeWhile_imp hc
    have hnemp : ¬ s.takeWhile isHostChar = [] := by
      simp only [List.isEmpty_iff] at hne
      exact hne
    split at hp
    · rename_i hrest
      simp only [Option.some.injEq, Prod.mk.injEq] at hp
      obtain ⟨h1, h2, h3⟩ := hp
      subst h1; subst h2; subst h3
      refine ⟨?_, hnemp, hhost, by simp, by simp⟩
      conv_lhs => rw [← hsplit]
      rw [hrest]
      simp [optTail]
    · rename_i r1 hrest
      split at hp
      · cases hp
      · rename_i hpne
        have hps := List.takeWhile_append_dropWhile Char.isDigit r1
        have hpdig : ∀ c ∈ r1.takeWhile Char.isDigit, c.isDigit = true :=
          fun c hc => List.mem_takeWhile_imp hc
        have hpnemp : ¬ r1.takeWhile Char.isDigit = [] := by
          simp only [List.isEmpty_iff] at hpne
          exact hpne
        split at hp
        · rename_i hr2
          simp only [Option.some.injEq, Prod.mk.injEq] at hp
          obtain ⟨h1, h2, h3⟩ := hp
          subst h1; subst h2; subst h3
          refine ⟨?_, hnemp, hhost, ?_, by simp⟩
          · conv_lhs => rw [← hsplit]
            rw [hrest]
            conv_lhs => rw [← hps]
            rw [hr2]
            simp [optTail]
          · intro ds hds
            injection hds with hds
            subst hds
            exact ⟨hpnemp, hpdig⟩
        · rename_i r3 hr2
          split at hp
          · cases hp
          · rename_i hdne
            have hds2 := List.takeWhile_append_dropWhile Char.isDigit r3
            have hddig : ∀ c ∈ r3.takeWhile Char.isDigit, c.isDigit = true :=
              fun c hc => List.mem_takeWhile_imp hc
            have hdnemp : ¬ r3.takeWhile Char.isDigit = [] := by
              simp only [List.isEmpty_iff] at hdne
              exact hdne
            split at hp
            · rename_i hr4
              simp only [List.isEmpty_iff] at hr4
              simp only [Option.some.injEq, Prod.mk.injEq] at hp
              obtain ⟨h1, h2, h3⟩ := hp
              subst h1; subst h2; subst h3
              refine ⟨?_, hnemp, hhost, ?_, ?_⟩
              · conv_lhs => rw [← hsplit]
                rw [hrest]
                conv_lhs => rw [← hps]
                rw [hr2]
                conv_lhs => rw [← hds2]
                rw [hr4]
                simp [optTail]
              · intro ds hds
                injection hds with hds
                subst hds
                exact ⟨hpnemp, hpdig⟩
              · intro ds hds
                injection hds with hds
                subst hds
                exact ⟨hdnemp, hddig⟩
            · cases hp
        · cases hp
    · rename_i r3 hrest
      split at hp
      · cases hp
      · rename_i hdne
        have hds2 := List.takeWhile_append_dropWhile Char.isDigit r3
        have hddig : ∀ c ∈ r3.takeWhile Char.isDigit, c.isDigit = true :=
          fun c hc => List.mem_takeWhile_imp hc
        have hdnemp : ¬ r3.takeWhile Char.isDigit = [] := by
          simp only [List.isEmpty_iff] at hdne
          exact hdne
        split at hp
        · rename_i hr4
          simp only [List.isEmpty_iff] at hr4
          simp only [Option.some.injEq, Prod.mk.injEq] at hp
          obtain ⟨h1, h2, h3⟩ := hp
          subst h1; subst h2; subst h3
          refine ⟨?_, hnemp, hhost, by simp, ?_⟩
          · conv_lhs => rw [← hsplit]
            rw [hrest]
            conv_lhs => rw [← hds2]
            rw [hr4]
            simp [optTail]
          · intro ds hds
            injection hds with hds
            subst hds
            exact ⟨hdnemp, hddig⟩
        · cases hp
    · cases hp

theorem matchRedisUrl_sound (url : List Char) (parts : UrlParts)
    (h : matchRedisUrl url = some parts) : UrlWellFormed url := by
  unfold matchRedisUrl at h
  cases hs : stripScheme url with
  | none => simp only [hs] at h; cases h
  | some rest =>
      simp only [hs] at h
      have hurl := stripScheme_some url rest hs
      cases hsp : splitAtFirst '@' rest with
      | none =>
          simp only [hsp] at h
          cases hhp : parseHostPort rest with
          | none => simp only [hhp] at h; cases h
          | some hpd =>
              simp only [hhp] at h
              obtain ⟨hh, pp, dd⟩ := hpd
              have hd := parseHostPort_some rest hh pp dd hhp
              refine ⟨[], hh, pp, dd, ?_, Or.inl rfl, hd.2.1, hd.2.2.1, hd.2.2.2.1, hd.2.2.2.2⟩
              rw [hurl, hd.1]
              simp
      | some uihp =>
          simp only [hsp] at h
          obtain ⟨userinfo, hostpart⟩ := uihp
          have hspd := splitAtFirst_some '@' rest userinfo hostpart hsp
          cases hhp : parseHostPort hostpart with
          | none => simp only [hhp] at h; cases h
          | some hpd =>
              simp only [hhp] at h
              obtain ⟨hh, pp, dd⟩ := hpd
              have hd := parseHostPort_some hostpart hh pp dd hhp
              cases hui : splitAtFirst ':' userinfo with
              | none =>
                  simp only [hui] at h
                  refine ⟨userinfo ++ ['@'], hh, pp, dd, ?_, ?_, hd.2.1, hd.2.2.1, hd.2.2.2.1, hd.2.2.2.2⟩
                  · rw [hurl, hspd.1, hd.1]
                    simp
                  · refine Or.inr (Or.inl ⟨userinfo, rfl, ?_⟩)
                    intro c hc
                    refine ⟨?_, hspd.2 c hc⟩
                    intro hcc
                    subst hcc
                    -- c = ':' would have been found by splitAtFirst ':'
                    have : ∀ l : List Char, ':' ∈ l → splitAtFirst ':' l ≠ none := by
                      intro l hl
                      induction l with
                      | nil => simp at hl
                      | cons x xs ih2 =>
                          rw [splitAtFirst]
                          by_cases hx : x = ':'
                          · simp [hx]
                          · simp only [if_neg hx]
                            simp only [List.mem_cons] at hl
                            rcases hl with hl | hl
                            · exact absurd hl.symm hx
                            · have := ih2 hl
                              cases hss : splitAtFirst ':' xs with
                              | none => exact absurd hss this
                              | some ab => simp [hss]
                    exact this userinfo hc hui
              | some upw =>
                  simp only [hui] at h
                  obtain ⟨u, pw⟩ := upw
                  have hupw := splitAtFirst_some ':' userinfo u pw hui
                  refine ⟨userinfo ++ ['@'], hh, pp, dd, ?_, ?_, hd.2.1, hd.2.2.1, hd.2.2.2.1, hd.2.2.2.2⟩
                  · rw [hurl, hspd.1, hd.1]
                    simp
                  · refine Or.inr (Or.inr ⟨u, pw, ?_, ?_, ?_⟩)
                    · rw [hupw.1]
                      simp
                    · intro c hc
                      refine ⟨hupw.2 c hc, ?_⟩
                      apply hspd.2
                      rw [hupw.1]
                      simp [hc]
                    · intro c hc
                      apply hspd.2
                      rw [hupw.1]
                      simp [hc]




/-- Counter-level state of RedisConnectionPool (`RedisConnectionPool.h`):
sizes of m_all_connections and m_available_connections plus the four
lifecycle counters read by getStats. -/
structure PoolState where
  allConns : Nat
  available : Nat
  acquired : Nat
  released : Nat
  created : Nat
  destroyed : Nat
  deriving Repr, DecidableEq

/-- getStats (`RedisConnectionPool.cc` lines 645-676):
`active_connections = total_connections - available_connections`. -/
def PoolState.active (s : PoolState) : Nat := s.allConns - s.available

/-- Pool transitions, each modelling one code path of
`RedisConnectionPool.cc`. -/
inductive PoolOp where
  | createConn
  | acquireFromIdle
  | acquireDropUnhealthy
  | acquireCreate
  | releaseHealthy
  | releaseUnhealthy
  | releaseOverCap
  | warmupCreate
  deriving Repr, DecidableEq

/-- One pool transition; `none` when the code path's guard does not apply.

* `createConn`: getConnectionSync — pushes the new connection into
  m_all_connections and bumps m_total_created; it is NOT placed into
  m_available_connections and nothing else changes.  `initialize()` is a
  sequence of these.
* `acquireFromIdle`: PoolAcquireAwaitable pops a healthy idle connection:
  m_total_acquired++.
* `acquireDropUnhealthy`: the popped idle connection is unhealthy: it is
  erased from m_all_connections and m_total_destroyed++.
* `acquireCreate`: no idle connection and `all < max`: getConnectionSync
  then m_total_acquired++.
* `releaseHealthy`: release() of a healthy connection within the cap:
  pushed onto m_available_connections, m_total_released++.  The released
  connection is a pool member held by the caller, so available < all.
* `releaseUnhealthy` / `releaseOverCap`: release() destroys the connection:
  erased from m_all_connections, m_total_destroyed++ — m_total_released is
  NOT incremented.
* `warmupCreate`: warmup/health-check replacement/expandPool:
  getConnectionSync followed by an m_available_connections push. -/
def poolStep (maxConns : Nat) (s : PoolState) : PoolOp → Option PoolState
  | .createConn =>
      some { s with allConns := s.allConns + 1, created := s.created + 1 }
  | .acquireFromIdle =>
      if s.available = 0 then none
      else some { s with available := s.available - 1, acquired := s.acquired + 1 }
  | .acquireDropUnhealthy =>
      if s.available = 0 then none
      else some { s with available := s.available - 1, allConns := s.allConns - 1, destroyed := s.destroyed + 1 }
  | .acquireCreate =>
      if s.available = 0 ∧ s.allConns < maxConns then
        some { s with allConns := s.allConns + 1, created := s.created + 1, acquired := s.acquired + 1 }
      else none
  | .releaseHealthy =>
      if s.available < s.allConns ∧ s.allConns ≤ maxConns then
        some { s with available := s.available + 1, released := s.released + 1 }
      else none
  | .releaseUnhealthy =>
      if s.allConns = 0 then none
      else some { s with allConns := s.allConns - 1, destroyed := s.destroyed + 1 }
  | .releaseOverCap =>
      if maxConns < s.allConns then
        some { s with allConns := s.allConns - 1, destroyed := s.destroyed + 1 }
      else none
  | .warmupCreate =>
      some { s with allConns := s.allConns + 1, created := s.created + 1, available := s.available + 1 }

/-- Runs a sequence of pool transitions. -/
def poolRun (maxConns : Nat) : PoolState → List PoolOp → Option PoolState
  | s, [] => some s
  | s, op :: ops =>
      match poolStep maxConns s op with
      | none => none
      | some s2 => poolRun maxConns s2 ops

/-- The freshly constructed pool: empty, all counters zero. -/
def poolInit : PoolState := ⟨0, 0, 0, 0, 0, 0⟩

/-- Transitions that do not break the acquired-released accounting:
everything except bare creation (initialize) and destroy-on-release. -/
def PoolOp.keepsEquation : PoolOp → Bool
  | .createConn => false
  | .releaseUnhealthy => false
  | .releaseOverCap => false
  | _ => true

theorem poolStep_preserves (maxConns : Nat) (s s2 : PoolState) (op : PoolOp)
    (hop : op.keepsEquation = true)
    (heq : s.acquired = s.released + s.active)
    (hle : s.available ≤ s.allConns)
    (h : poolStep maxConns s op = some s2) :
    s2.acquired = s2.released + s2.active ∧ s2.available ≤ s2.allConns := by
  unfold PoolState.active at heq ⊢
  cases op with
  | createConn => simp [PoolOp.keepsEquation] at hop
  | releaseUnhealthy => simp [PoolOp.keepsEquation] at hop
  | releaseOverCap => simp [PoolOp.keepsEquation] at hop
  | acquireFromIdle =>
      simp only [poolStep] at h
      split at h
      · cases h
      · rename_i hav
        injection h with h2
        subst h2
        simp only []
        omega
  | acquireDropUnhealthy =>
      simp only [poolStep] at h
      split at h
      · cases h
      · rename_i hav
        injection h with h2
        subst h2
        simp only []
        omega
  | acquireCreate =>
      simp only [poolStep] at h
      split at h
      · rename_i hav
        injection h with h2
        subst h2
        simp only []
        omega
      · cases h
  | releaseHealthy =>
      simp only [poolStep] at h
      split at h
      · rename_i hav
        injection h with h2
        subst h2
        simp only []
        omega
      · cases h
  | warmupCreate =>
      simp only [poolStep] at h
      injection h with h2
      subst h2
      simp only []
      omega

theorem poolRun_preserves (maxConns : Nat) (ops : List PoolOp) :
    ∀ s s2 : PoolState, (∀ op ∈ ops, op.keepsEquation = true) →
    s.acquired = s.released + s.active → s.available ≤ s.allConns →
    poolRun maxConns s ops = some s2 →
    s2.acquired = s2.released + s2.active ∧ s2.available ≤ s2.allConns := by
  induction ops with
  | nil =>
      intro s s2 _ heq hle h
      rw [poolRun] at h
      injection h with h2
      subst h2
      exact ⟨heq, hle⟩
  | cons op ops ih =>
      intro s s2 hops heq hle h
      rw [poolRun] at h
      cases hstep : poolStep maxConns s op with
      | none => rw [hstep] at h; cases h
      | some smid =>
          rw [hstep] at h
          have hmid := poolStep_preserves maxConns s smid op (hops op (by simp)) heq hle hstep
          exact ih smid s2 (fun o ho => hops o (by simp [ho])) hmid.1 hmid.2 h




/-- Collecting N replies from the arrival stream: when the stream is the
concatenation of N frames, each parsing completely to one reply, the
pipeline parse loop returns exactly those N replies in order. -/
theorem pipelineCollect_frames (frames : List (List Char)) (replies : List RedisReply)
    (hrel : List.Forall₂ (fun f r => parse f = Except.ok (f.length, r)) frames replies) :
    pipelineCollect frames.flatten frames.length = some (Except.ok replies) := by
  induction hrel with
  | nil => rfl
  | @cons f r fs rs hfr _ ih =>
      show pipelineCollect (f ++ fs.flatten) (fs.length + 1) = some (Except.ok (r :: rs))
      rw [pipelineCollect]
      have hfne : f ≠ [] := by
        intro h0
        rw [h0, parse_nil] at hfr
        cases hfr
      rw [if_neg (by simp [List.isEmpty_iff, hfne])]
      have hp : parse (f ++ fs.flatten) = Except.ok (f.length, r) :=
        parse_append_ok f fs.flatten f.length r hfr
      simp only [hp, List.drop_left, ih]

/-- C1 (confirmed): the pipeline batch is the concatenation of the RESP
array encodings of the N sub-commands (for non-empty sub-commands
encodeCommand is exactly encodeArray), and when the connection delivers N
frames parsing to N replies, the collection loop returns those N replies
in arrival order, position for position. -/
theorem pipeline_batch_and_replies
    (commands : List (List (List Char))) (frames : List (List Char)) (replies : List RedisReply)
    (hne : ∀ c ∈ commands, c.isEmpty = false)
    (hrel : List.Forall₂ (fun f r => parse f = Except.ok (f.length, r)) frames replies)
    (hn : frames.length = commands.length) :
    pipelineEncodedBatch commands = (commands.map encodeArray).flatten ∧
    pipelineCollect frames.flatten commands.length = some (Except.ok replies) ∧
    replies.length = commands.length := by
  refine ⟨?_, ?_, ?_⟩
  · unfold pipelineEncodedBatch
    congr 1
    apply List.map_congr_left
    intro c hc
    unfold encodeCommand
    rw [if_neg (by simp [hne c hc])]
  · rw [← hn]
    exact pipelineCollect_frames frames replies hrel
  · rw [← hn]
    exact hrel.length_eq.symm

/-- C1 witness: a one-command pipeline (PING) against the arrival stream
`+OK\x0d\x0a`. -/
theorem pipeline_batch_and_replies_witness :
    pipelineEncodedBatch [[['P', 'I', 'N', 'G']]] = ([[['P', 'I', 'N', 'G']]].map encodeArray).flatten ∧
    pipelineCollect [['+', 'O', 'K', '\r', '\n']].flatten [[['P', 'I', 'N', 'G']]].length =
      some (Except.ok [RedisReply.simpleString ['O', 'K']]) ∧
    [RedisReply.simpleString ['O', 'K']].length = [[['P', 'I', 'N', 'G']]].length :=
  pipeline_batch_and_replies [[['P', 'I', 'N', 'G']]] [['+', 'O', 'K', '\r', '\n']]
    [RedisReply.simpleString ['O', 'K']] (by decide)
    (List.Forall₂.cons (by rw [parse_cons_plus]; rfl) List.Forall₂.nil) rfl

/-- C2 counterexample: RedisClient::close only closes the socket and never
writes m_is_closed, so after close() the flag still reads false, and a
subsequent execute() does not fail with ConnectionClosed — it happily
creates, caches and returns a fresh awaitable for the new command. -/
theorem client_close_flag_counterexample :
    (RedisClientM.close ⟨false, true, none⟩).isClosed = false ∧
    ((RedisClientM.close ⟨false, true, none⟩).execute ['P'] []).2.m_cmd_awaitable =
      some (mkRedisClientAwaitable ['P'] []) :=
  ⟨rfl, rfl⟩

/-- C2 (corrected): the claimed semantics hold for AsyncRedisSession —
close() sets the flag, is idempotent, and makes execute and pipeline fail
immediately with ConnectionClosed — while RedisClient::close leaves
m_is_closed and the cached awaitable untouched (only the move operations
ever set the flag, and execute never consults it). -/
theorem session_close_semantics (s : AsyncRedisSessionM) (cl : RedisClientM)
    (commands : List (List (List Char))) :
    (s.close).isClosed = true ∧
    (s.close).close = s.close ∧
    (s.close).executeCheck = some RedisErrorType.CONNECTION_CLOSED ∧
    (s.close).pipelineCheck commands = some (Except.error RedisErrorType.CONNECTION_CLOSED) ∧
    (cl.close).isClosed = cl.isClosed ∧
    (cl.close).m_cmd_awaitable = cl.m_cmd_awaitable :=
  ⟨rfl, rfl, rfl, rfl, rfl, rfl⟩

/-- C3 counterexample: the RESP3 push marker has no entry in the dispatch
chain of RespParser::parse, so a buffer carrying a well-formed push frame
fails with InvalidType instead of being parsed as a Push aggregate. -/
theorem parse_push_byte_counterexample :
    parse ['>', '1', '\r', '\n', '+', 'O', 'K', '\r', '\n'] = Except.error ParseError.InvalidType :=
  parse_cons_other '>' ['1', '\r', '\n', '+', 'O', 'K', '\r', '\n']
    (by decide) (by decide) (by decide) (by decide) (by decide)
    (by decide) (by decide) (by decide) (by decide)

/-- C3 (corrected): parse dispatches only on the nine markers
plus, minus, colon, dollar, star, comma, hash, percent, tilde; every other
first byte — the push marker included — yields InvalidType. -/
theorem parse_dispatch_invalid_type (c : Char) (tl : List Char)
    (h : ¬ (c = '+' ∨ c = '-' ∨ c = ':' ∨ c = '$' ∨ c = '*' ∨
            c = ',' ∨ c = '#' ∨ c = '%' ∨ c = '~')) :
    parse (c :: tl) = Except.error ParseError.InvalidType := by
  push_neg at h
  obtain ⟨h1, h2, h3, h4, h5, h6, h7, h8, h9⟩ := h
  exact parse_cons_other c tl h1 h2 h3 h4 h5 h6 h7 h8 h9

/-- C3 witness: dispatch of the out-of-table push marker. -/
theorem parse_dispatch_invalid_type_witness :
    parse ['>', '2', '\r', '\n'] = Except.error ParseError.InvalidType :=
  parse_dispatch_invalid_type '>' ['2', '\r', '\n'] (by decide)

/-- C4 counterexample: a map frame with count -1 is rejected as
InvalidLength by RespParser::parseMap — there is no Null case for maps
(nor for sets), unlike bulk strings and arrays. -/
theorem parse_map_negative_one_counterexample :
    parse ['%', '-', '1', '\r', '\n'] = Except.error ParseError.InvalidLength := by
  rw [parse_cons_percent, parseMap_of_crlf_some ['%', '-', '1', '\r', '\n'] 3 (by rfl)]
  rfl

/-- C4 (corrected): with a negative length or count value v in the header,
bulk strings and arrays turn v = -1 into a Null reply and any other
negative v into InvalidLength, while maps and sets reject every negative
v — including -1 — with InvalidLength. -/
theorem parse_negative_prefix_behavior (m : Char) (tl : List Char) (p : Nat) (v : Int)
    (hf : findCRLF (m :: tl) 1 = some p)
    (hv : parseIntegerValue (((m :: tl).drop 1).take (p - 1)) = Except.ok v)
    (hneg : v < 0) :
    (m = '%' → parse (m :: tl) = Except.error ParseError.InvalidLength) ∧
    (m = '~' → parse (m :: tl) = Except.error ParseError.InvalidLength) ∧
    (m = '$' → parse (m :: tl) =
      (if v = -1 then Except.ok (p + 2, RedisReply.null) else Except.error ParseError.InvalidLength)) ∧
    (m = '*' → parse (m :: tl) =
      (if v = -1 then Except.ok (p + 2, RedisReply.null) else Except.error ParseError.InvalidLength)) := by
  refine ⟨?_, ?_, ?_, ?_⟩
  · intro hm
    subst hm
    rw [parse_cons_percent, parseMap_of_crlf_some _ p hf]
    simp only [hv]
    rw [if_pos hneg]
  · intro hm
    subst hm
    rw [parse_cons_tilde, parseSet_of_crlf_some _ p hf]
    simp only [hv]
    rw [if_pos hneg]
  · intro hm
    subst hm
    rw [parse_cons_dollar, parseBulkString]
    simp only [hf, hv]
    by_cases h1 : v = -1
    · rw [if_pos h1, if_pos h1]
    · rw [if_neg h1, if_pos hneg, if_neg h1]
  · intro hm
    subst hm
    rw [parse_cons_star, parseArray_of_crlf_some _ p hf]
    simp only [hv]
    by_cases h1 : v = -1
    · rw [if_pos h1, if_pos h1]
    · rw [if_neg h1, if_pos hneg, if_neg h1]

/-- C4 witness: the bulk-string null frame. -/
theorem parse_negative_prefix_behavior_witness :
    parse ['$', '-', '1', '\r', '\n'] =
      (if (-1 : Int) = -1 then Except.ok (3 + 2, RedisReply.null)
       else Except.error ParseError.InvalidLength) :=
  (parse_negative_prefix_behavior '$' ['-', '1', '\r', '\n'] 3 (-1)
    (by rfl) (by rfl) (by decide)).2.2.1 rfl

/-- C5 counterexample: parse is not prefix-monotonic as claimed — the
boolean frame prefix hash-z is Incomplete (fewer than 4 bytes), but
appending the closing CRLF produces InvalidFormat, an error kind, because
the byte after the hash is neither t nor f. -/
theorem parse_prefix_monotonicity_counterexample :
    parse ['#', 'z'] = Except.error ParseError.Incomplete ∧
    parse (['#', 'z'] ++ ['\r', '\n']) = Except.error ParseError.InvalidFormat := by
  constructor
  · rw [parse_cons_hash]
    rfl
  · show parse ['#', 'z', '\r', '\n'] = Except.error ParseError.InvalidFormat
    rw [parse_cons_hash]
    rfl

/-- C5 (corrected): monotonicity does hold in the direction the parser is
actually used — when the whole buffer parses successfully, every prefix
is either Incomplete (shorter than the consumed count) or yields the very
same successful result, and appending extra bytes never changes a
success. -/
theorem parse_prefix_of_ok (buf : List Char) (c : Nat) (r : RedisReply)
    (h : parse buf = Except.ok (c, r)) (n : Nat) :
    parse (buf.take n) =
      (if n < c then Except.error ParseError.Incomplete else Except.ok (c, r)) ∧
    ∀ ext, parse (buf ++ ext) = Except.ok (c, r) := by
  constructor
  · by_cases hn : n < c
    · rw [if_pos hn]
      exact parse_take_incomplete buf c r n h hn
    · rw [if_neg hn]
      exact parse_take_ok buf c r n h (by omega)
  · intro ext
    exact parse_append_ok buf ext c r h

/-- C5 witness: a strict prefix of a complete simple-string frame is
Incomplete. -/
theorem parse_prefix_of_ok_witness :
    parse (['+', 'O', 'K', '\r', '\n'].take 3) =
      (if 3 < 5 then Except.error ParseError.Incomplete
       else Except.ok (5, RedisReply.simpleString ['O', 'K'])) :=
  (parse_prefix_of_ok ['+', 'O', 'K', '\r', '\n'] 5 (RedisReply.simpleString ['O', 'K'])
    (by rw [parse_cons_plus]; rfl) 3).1

/-- The host group of the connect-URL regex is non-empty whenever the
regex matches. -/
theorem matchRedisUrl_some_host (url : List Char) (parts : UrlParts)
    (h : matchRedisUrl url = some parts) : parts.host.isEmpty = false := by
  unfold matchRedisUrl at h
  cases hs : stripScheme url with
  | none => simp only [hs] at h; cases h
  | some rest =>
      simp only [hs] at h
      cases hsp : splitAtFirst '@' rest with
      | none =>
          simp only [hsp] at h
          cases hhp : parseHostPort rest with
          | none => simp only [hhp] at h; cases h
          | some hpd =>
              obtain ⟨hh, pp, dd⟩ := hpd
              simp only [hhp] at h
              injection h with h2
              subst h2
              have hne := (parseHostPort_some rest hh pp dd hhp).2.1
              simpa [List.isEmpty_iff] using hne
      | some uihp =>
          obtain ⟨ui, hp2⟩ := uihp
          simp only [hsp] at h
          cases hhp : parseHostPort hp2 with
          | none => simp only [hhp] at h; cases h
          | some hpd =>
              obtain ⟨hh, pp, dd⟩ := hpd
              simp only [hhp] at h
              injection h with h2
              subst h2
              have hne := (parseHostPort_some hp2 hh pp dd hhp).2.1
              simpa [List.isEmpty_iff] using hne

/-- C6 (corrected): the URL handling claimed holds for
AsyncRedisSession::connect (and RedisSession::connect), which rejects any
URL outside the redis scheme grammar with URL_INVALID and a port whose
digits overflow std::stoi with PORT_INVALID; RedisClient::connect(url) —
the code the claim cites — raises no error at all on a mismatch and
silently proceeds with the defaults (empty host, port 6379, db 0).
A port with non-digit characters can never reach the stoi call: such a
URL already fails the regex and is URL_INVALID. -/
theorem session_url_rejection (url : List Char) :
    (¬ UrlWellFormed url →
      asyncSessionConnectUrl url = Except.error RedisErrorType.URL_INVALID ∧
      redisClientConnectParams url = ⟨[], [], [], 6379, 0⟩) ∧
    (∀ parts ds, matchRedisUrl url = some parts → parts.portDigits = some ds →
      stoiOverflows ds = true →
      asyncSessionConnectUrl url = Except.error RedisErrorType.PORT_INVALID) := by
  constructor
  · intro hnw
    have hm : matchRedisUrl url = none := by
      cases hmm : matchRedisUrl url with
      | none => rfl
      | some parts => exact absurd (matchRedisUrl_sound url parts hmm) hnw
    constructor
    · unfold asyncSessionConnectUrl
      simp only [hm]
    · unfold redisClientConnectParams
      simp only [hm]
  · intro parts ds hmatch hds hovf
    have hhost := matchRedisUrl_some_host url parts hmatch
    unfold asyncSessionConnectUrl
    simp [hmatch, hhost, hds, hovf]

/-- C6 witness: a one-letter non-URL is accepted with defaults by the
client but rejected by the session; an in-grammar URL whose port digits
exceed INT_MAX is PORT_INVALID. -/
theorem session_url_rejection_witness :
    (asyncSessionConnectUrl ['x'] = Except.error RedisErrorType.URL_INVALID ∧
     redisClientConnectParams ['x'] = ⟨[], [], [], 6379, 0⟩) ∧
    asyncSessionConnectUrl
        ['r', 'e', 'd', 'i', 's', ':', '/', '/', 'h', ':', '9', '9', '9', '9', '9', '9', '9', '9', '9', '9'] =
      Except.error RedisErrorType.PORT_INVALID :=
  ⟨(session_url_rejection ['x']).1 (by
      rintro ⟨ui, hst, pp, dd, heq, -⟩
      have hlen := congrArg List.length heq
      simp [redisSchemePrefix, List.length_append] at hlen),
   (session_url_rejection
      ['r', 'e', 'd', 'i', 's', ':', '/', '/', 'h', ':', '9', '9', '9', '9', '9', '9', '9', '9', '9', '9']).2
      ⟨[], [], ['h'], some ['9', '9', '9', '9', '9', '9', '9', '9', '9', '9'], none⟩
      ['9', '9', '9', '9', '9', '9', '9', '9', '9', '9'] (by decide) rfl (by decide)⟩

/-- C7 counterexample: the counters do not satisfy acquired - released =
active in every reachable pool state.  Releasing an unhealthy connection
destroys it without incrementing m_total_released (acquired - released
stays 1 while no connection is out), and initialize()'s getConnectionSync
grows m_all_connections without touching m_available_connections, so
getStats reads one active connection although none was ever acquired. -/
theorem pool_counter_equation_counterexample :
    (poolRun 10 poolInit [PoolOp.acquireCreate, PoolOp.releaseUnhealthy] =
        some ⟨0, 0, 1, 0, 1, 1⟩ ∧
      ¬ ((⟨0, 0, 1, 0, 1, 1⟩ : PoolState).acquired - (⟨0, 0, 1, 0, 1, 1⟩ : PoolState).released =
          PoolState.active ⟨0, 0, 1, 0, 1, 1⟩)) ∧
    (poolRun 10 poolInit [PoolOp.createConn] = some ⟨1, 0, 0, 0, 1, 0⟩ ∧
      ¬ ((⟨1, 0, 0, 0, 1, 0⟩ : PoolState).acquired - (⟨1, 0, 0, 0, 1, 0⟩ : PoolState).released =
          PoolState.active ⟨1, 0, 0, 0, 1, 0⟩)) := by
  decide

/-- C7 (corrected): the accounting equation acquired = released + active
(hence acquired - released = active) and available ≤ total do hold for
every run built from the transitions that keep the books — idle and
fresh-creation acquires, healthy in-cap releases and warmup creation —
but bare initialize() creation and the destroy-on-release paths (unhealthy
or over-cap), which skip m_total_released, break it. -/
theorem pool_counter_equation_restricted (maxConns : Nat) (ops : List PoolOp) (s : PoolState)
    (hops : ∀ op ∈ ops, op.keepsEquation = true)
    (h : poolRun maxConns poolInit ops = some s) :
    s.acquired - s.released = s.active ∧ s.active ≤ s.allConns := by
  have hinv := poolRun_preserves maxConns ops poolInit s hops rfl (by simp [poolInit]) h
  unfold PoolState.active at hinv ⊢
  omega

/-- C7 witness: warmup, acquire from idle, healthy release. -/
theorem pool_counter_equation_restricted_witness :
    (⟨1, 1, 1, 1, 1, 0⟩ : PoolState).acquired - (⟨1, 1, 1, 1, 1, 0⟩ : PoolState).released =
      PoolState.active ⟨1, 1, 1, 1, 1, 0⟩ ∧
    PoolState.active ⟨1, 1, 1, 1, 1, 0⟩ ≤ (⟨1, 1, 1, 1, 1, 0⟩ : PoolState).allConns :=
  pool_counter_equation_restricted 5
    [PoolOp.warmupCreate, PoolOp.acquireFromIdle, PoolOp.releaseHealthy]
    ⟨1, 1, 1, 1, 1, 0⟩ (by decide) (by decide)

/-- The digit loop of parseIntegerValue succeeds exactly on all-digit
input, whatever the accumulator. -/
theorem digitsValue_isSome (l : List Char) :
    ∀ acc, (digitsValue l acc).isSome = l.all isDigitChar := by
  induction l with
  | nil => intro acc; rfl
  | cons c rest ih =>
      intro acc
      rw [digitsValue]
      by_cases hc : isDigitChar c = true
      · rw [if_pos hc]
        simp [List.all_cons, hc, ih]
      · rw [if_neg hc]
        simp only [Bool.not_eq_true] at hc
        simp [List.all_cons, hc]

/-- Success domain of the integer body as the source computes it: a
non-empty string that is all digits after skipping one optional leading
minus or plus sign (a bare sign is accepted and yields 0). -/
def integerBodyOk : List Char → Bool
  | [] => false
  | c :: rest =>
      if c = '-' ∨ c = '+' then rest.all isDigitChar
      else (c :: rest).all isDigitChar

/-- C8 (corrected): parseIntegerValue succeeds exactly on integerBodyOk
bodies — optional single leading minus OR PLUS sign, then only digits,
with zero digits (a bare sign) allowed and read as 0; every failure is
InvalidFormat.  The claimed domain (digits with optional leading minus
only, sign alone rejected) is narrower than the code's. -/
theorem integer_body_success_domain (body : List Char) :
    (parseIntegerValue body).isOk = integerBodyOk body ∧
    ∀ e, parseIntegerValue body = Except.error e → e = ParseError.InvalidFormat := by
  cases body with
  | nil =>
      refine ⟨rfl, ?_⟩
      intro e h
      simp only [parseIntegerValue] at h
      injection h with h2
      exact h2.symm
  | cons c rest =>
      by_cases hc : c = '-' ∨ c = '+'
      · have hall := digitsValue_isSome rest 0
        cases hdv : digitsValue rest 0 with
        | none =>
            rw [hdv] at hall
            refine ⟨?_, ?_⟩
            · simp only [parseIntegerValue, integerBodyOk, if_pos hc, hdv]
              rw [← hall]
              rfl
            · intro e h
              simp only [parseIntegerValue, if_pos hc, hdv] at h
              injection h with h2
              exact h2.symm
        | some v =>
            rw [hdv] at hall
            refine ⟨?_, ?_⟩
            · simp only [parseIntegerValue, integerBodyOk, if_pos hc, hdv]
              rw [← hall]
              rfl
            · intro e h
              simp only [parseIntegerValue, if_pos hc, hdv] at h
              exact Except.noConfusion h
      · have hall := digitsValue_isSome (c :: rest) 0
        cases hdv : digitsValue (c :: rest) 0 with
        | none =>
            rw [hdv] at hall
            refine ⟨?_, ?_⟩
            · simp only [parseIntegerValue, integerBodyOk, if_neg hc, hdv]
              rw [← hall]
              rfl
            · intro e h
              simp only [parseIntegerValue, if_neg hc, hdv] at h
              injection h with h2
              exact h2.symm
        | some v =>
            rw [hdv] at hall
            refine ⟨?_, ?_⟩
            · simp only [parseIntegerValue, integerBodyOk, if_neg hc, hdv]
              rw [← hall]
              rfl
            · intro e h
              simp only [parseIntegerValue, if_neg hc, hdv] at h
              exact Except.noConfusion h

/-- C8 counterexample: a leading plus sign is accepted (value 5), and a
bare minus sign is accepted as 0, both contradicting the claimed
digits-with-optional-minus-only domain. -/
theorem integer_body_plus_sign_counterexample :
    parseIntegerValue ['+', '5'] = Except.ok 5 ∧ parseIntegerValue ['-'] = Except.ok 0 :=
  ⟨rfl, rfl⟩

/-- C8 witness: the success-domain equation evaluated on a plus-signed
body. -/
theorem integer_body_success_domain_witness :
    (parseIntegerValue ['+', '5']).isOk = integerBodyOk ['+', '5'] :=
  (integer_body_success_domain ['+', '5']).1

/-- C9 (confirmed): when the cached command awaitable exists and is not
Invalid, execute returns it unchanged together with an unchanged client —
the new command and arguments are never encoded, cached or sent. -/
theorem execute_cached_awaitable (cl : RedisClientM) (aw : RedisClientAwaitableM)
    (cmd : List Char) (args : List (List Char))
    (hcache : cl.m_cmd_awaitable = some aw) (hstate : ¬ aw.state = AwaitState.Invalid) :
    cl.execute cmd args = (aw, cl) := by
  simp only [RedisClientM.execute, hcache]
  rw [if_neg hstate]

/-- C9 witness: a client holding a Sending awaitable ignores a new SET
command. -/
theorem execute_cached_awaitable_witness :
    RedisClientM.execute ⟨false, true, some ⟨['G'], [], ['g'], AwaitState.Sending⟩⟩ ['S'] [['k']] =
      (⟨['G'], [], ['g'], AwaitState.Sending⟩,
       ⟨false, true, some ⟨['G'], [], ['g'], AwaitState.Sending⟩⟩) :=
  execute_cached_awaitable _ _ ['S'] [['k']] rfl (by decide)

/-- Any reply the receive loop returns was parsed from a buffer that never
exceeded the 1 MiB cap: the cap is checked right after every append, so a
successful parse only ever sees at most 1 MiB of accumulated bytes. -/
theorem receiveReplyLoop_ok_bound (chunks : List (List Char)) :
    ∀ buffer : List Char, buffer.length ≤ 1024 * 1024 →
    ∀ r : RedisReply, receiveReplyLoop buffer chunks = some (Except.ok r) →
    ∃ buf c, buf.length ≤ 1024 * 1024 ∧ parse buf = Except.ok (c, r) := by
  induction chunks with
  | nil =>
      intro buffer hb r h
      rw [receiveReplyLoop] at h
      cases hp : parse buffer with
      | ok pr =>
          obtain ⟨c0, r0⟩ := pr
          simp only [hp] at h
          simp only [Option.some.injEq, Except.ok.injEq] at h
          subst h
          exact ⟨buffer, c0, hb, hp⟩
      | error e =>
          cases e <;> simp only [hp] at h <;> simp at h
  | cons chunk rest ih =>
      intro buffer hb r h
      rw [receiveReplyLoop] at h
      cases hp : parse buffer with
      | ok pr =>
          obtain ⟨c0, r0⟩ := pr
          simp only [hp] at h
          simp only [Option.some.injEq, Except.ok.injEq] at h
          subst h
          exact ⟨buffer, c0, hb, hp⟩
      | error e =>
          cases e
          case Incomplete =>
            simp only [hp] at h
            split at h
            · simp at h
            · split at h
              · simp at h
              · rename_i hlen
                exact ih (buffer ++ chunk) (by omega) r h
          all_goals (simp only [hp] at h; simp at h)

/-- C10 (confirmed): every reply the synchronous receiveReply produces
comes from a buffer of at most 1 MiB — as soon as the accumulated
unparsed bytes would exceed 1024*1024 right after an append, the loop
stops with BUFFER_OVERFLOW before attempting another parse. -/
theorem receive_reply_buffer_cap (chunks : List (List Char)) (r : RedisReply)
    (h : receiveReply chunks = some (Except.ok r)) :
    (∃ buf c, buf.length ≤ 1024 * 1024 ∧ parse buf = Except.ok (c, r)) ∧
    (∀ buffer chunk rest, parse buffer = Except.error ParseError.Incomplete →
      chunk.isEmpty = false → 1024 * 1024 < (buffer ++ chunk).length →
      receiveReplyLoop buffer (chunk :: rest) =
        some (Except.error RedisErrorType.BUFFER_OVERFLOW)) := by
  constructor
  · exact receiveReplyLoop_ok_bound chunks [] (by simp) r h
  · intro buffer chunk rest hinc hne hlen
    rw [receiveReplyLoop]
    simp only [hinc]
    rw [if_neg (by simp [hne]), if_pos hlen]

/-- C10 witness: a single-chunk OK reply sits far below the cap. -/
theorem receive_reply_buffer_cap_witness :
    ∃ buf c, buf.length ≤ 1024 * 1024 ∧
      parse buf = Except.ok (c, RedisReply.simpleString ['O', 'K']) :=
  (receive_reply_buffer_cap [['+', 'O', 'K', '\r', '\n']] (RedisReply.simpleString ['O', 'K'])
    (by
      rw [receiveReply, receiveReplyLoop]
      simp only [parse_nil]
      rw [if_neg (by decide), if_neg (by decide)]
      rw [receiveReplyLoop]
      rw [show parse (([] : List Char) ++ ['+', 'O', 'K', '\r', '\n']) =
            Except.ok (5, RedisReply.simpleString ['O', 'K']) from by
        rw [List.nil_append, parse_cons_plus]; rfl])).1


/-- C6 counterexample: RedisClient::connect(url) does not reject a
malformed URL: the regex mismatch only logs a warning and the connection
proceeds with the default parameters (empty host, port 6379, db 0). -/
theorem client_url_defaults_counterexample :
    matchRedisUrl ['x'] = none ∧
    redisClientConnectParams ['x'] = ⟨[], [], [], 6379, 0⟩ :=
  ⟨rfl, rfl⟩

end GalayRedis
